import Mathlib

/-!
Verification of the sparkwarehouse repository.

The repository has two source files:

* `src/scd_merge.py` — a slowly-changing-dimension (SCD) merge engine.  The
  file consists of a long docstring describing SCD types 0–7 and a stub
  `def scd_merge(df_source, df_target, table_params): return df_merged`
  whose body returns the unbound name `df_merged`.  The specification states
  that the implementation is missing and defines the intended semantics, so
  the merge engine is modelled here from the specification text, while the
  stub itself is embedded separately (`scd_merge_stub`).

* `src/add_attributes.py` — a decorator (`add_attr`) that attaches functions
  as attributes to a class, plus module-level statements, one of which
  (`df.custom.add_column3()`) references the undefined name `df`.

Tables are modelled as lists of rows; rows carry their durable key, surrogate
key, effective interval, current flag and an association list of attribute
values.  Machine-level concerns (Spark partitioning, physical storage) are
outside the claims and not modelled.
-/

set_option autoImplicit false

universe u v

/-! ### Generic association-list operations -/

/-- First value bound to key `k` in an association list. -/
def lookupA {κ : Type u} {β : Type v} [DecidableEq κ] (k : κ) : List (κ × β) → Option β
  | [] => none
  | (m, v) :: rest => if m = k then some v else lookupA k rest

/-- Replace the first binding of key `k` by `v`; append `(k, v)` when absent. -/
def setA {κ : Type u} {β : Type v} [DecidableEq κ] (k : κ) (v : β) : List (κ × β) → List (κ × β)
  | [] => [(k, v)]
  | (m, w) :: rest => if m = k then (k, v) :: rest else (m, w) :: setA k v rest

/-- Whether key `k` is bound in an association list. -/
def hasA {κ : Type u} {β : Type v} [DecidableEq κ] (k : κ) : List (κ × β) → Bool
  | [] => false
  | (m, _) :: rest => if m = k then true else hasA k rest

/-- Whether a list has a repeated element. -/
def hasDupB {κ : Type u} [DecidableEq κ] : List κ → Bool
  | [] => false
  | a :: rest => if a ∈ rest then true else hasDupB rest

/-! ### Column names and values

The spec (§9) says the renaming conventions `original_`, `current_`,
`_alternate`, `_current`/`_historical` are a presentation concern and must be
kept as a naming strategy decoupled from policy, so output column names are
modelled as a structured type: `original n` stands for `original_<n>`,
`currentOf n` for `current_<n>`, `shadowCur n` for `<n>_current`,
`shadowHist n` for `<n>_historical`, and `src n` for a plain column `n`. -/

inductive ColName : Type
  /-- a plain (source-named) column `n` -/
  | src (n : String)
  /-- the SCD-0 output column `original_<n>` -/
  | original (n : String)
  /-- the SCD-1 output column `current_<n>` -/
  | currentOf (n : String)
  /-- the SCD-6 shadow column `<n>_current` -/
  | shadowCur (n : String)
  /-- the SCD-6 historical column `<n>_historical` -/
  | shadowHist (n : String)
deriving DecidableEq

/-- A column value; `none` is SQL null (comparison is null-aware, §4.2). -/
abbrev Val := Option Int

/-- Attribute values of one row, keyed by column name. -/
abbrev AttrMap := List (ColName × Val)

/-- Value of column `c`, reading null for an absent column. -/
def getAttr (a : AttrMap) (c : ColName) : Val := (lookupA c a).getD none

/-- Overwrite column `c` with value `v`. -/
def setAttr (c : ColName) (v : Val) (a : AttrMap) : AttrMap := setA c v a

/-! ### Data model (spec §3) -/

/-- One version row of the dimension snapshot: durable key, surrogate key,
half-open effective interval `[effFrom, effTo)`, current flag, attributes. -/
structure Row : Type where
  key : Nat
  sk : Nat
  effFrom : Nat
  effTo : Nat
  isCur : Bool
  attrs : AttrMap
deriving DecidableEq

/-- One record of the incoming source batch: durable key and attributes. -/
structure SrcRow : Type where
  key : Nat
  attrs : AttrMap
deriving DecidableEq

/-- Declared historization technique of one column (spec §4.3–§4.8).
`scd3` carries the alternate column's name (type-3 extra parameter). -/
inductive SCDType : Type
  | scd0
  | scd1
  | scd2
  | scd3 (alt : String)
  | scd6
  | scd7
deriving DecidableEq

/-- Column policy: mapping from attribute name to SCD type (spec §3), plus the
orchestrator parameter selecting cascading vs freeze-after-first type-3
alternate behaviour (spec §4.6). -/
structure Policy : Type where
  cols : List (String × SCDType)
  scd3Cascade : Bool
deriving DecidableEq

/-- Error taxonomy of the merge engine (spec §7). -/
inductive MergeError : Type
  | UnknownColumnPolicy
  | InvalidPolicyParams
  | PolicyConflict
  | DuplicateSourceKey
  | DuplicateCurrentRow
  | SurrogateKeyCollision
deriving DecidableEq

/-- Far-future sentinel for the `effective_to` of a current row (spec §4.5). -/
def sentinel : Nat := 99991231

/-! ### Merge engine, modelled from the spec -/

/-- Modelled from the spec (§4.1, §4.9): the output columns produced by one
policy entry.  `scd_merge` in src/scd_merge.py is an unimplemented stub, so
this and the following definitions formalize the documented semantics. -/
def colNamesOf : String × SCDType → List ColName
  | (n, .scd0) => [.original n]
  | (n, .scd1) => [.currentOf n]
  | (n, .scd2) => [.src n]
  | (n, .scd3 alt) => [.src n, .src alt]
  | (n, .scd6) => [.shadowCur n, .shadowHist n]
  | (n, .scd7) => [.src n]

/-- Modelled from the spec (§4.9): all output columns declared by a policy,
in declaration order. -/
def outColsL : List (String × SCDType) → List ColName
  | [] => []
  | e :: rest => colNamesOf e ++ outColsL rest

/-- Modelled from the spec (§4.9): all output columns of a policy. -/
def outCols (P : Policy) : List ColName := outColsL P.cols

/-- Source batch value of attribute `n` in row `s`. -/
def srcVal (s : SrcRow) (n : String) : Val := getAttr s.attrs (.src n)

/-- Modelled from the spec (§4.3): the type-0 output value — the source value
for a new key, the already-recorded target value otherwise. -/
def scd0Val (s : SrcRow) (old : Option AttrMap) (n : String) : Val :=
  match old with
  | none => srcVal s n
  | some o => getAttr o (.original n)

/-- Modelled from the spec (§4.6): the type-3 alternate value.  On a fresh
change it captures the previous current value of the primary column —
unconditionally when cascading, only when the alternate is currently null
under freeze-after-first; within a same-timestamp re-merge (`fresh = false`)
the already-captured alternate is kept. -/
def scd3Alt (cascade : Bool) (old : Option AttrMap) (fresh : Bool) (n alt : String) : Val :=
  match old with
  | none => none
  | some o =>
    if fresh then
      if cascade then getAttr o (.src n)
      else if getAttr o (.src alt) = none then getAttr o (.src n)
      else getAttr o (.src alt)
    else getAttr o (.src alt)

/-- Modelled from the spec (§4.3–§4.8): the `(column, value)` outputs of one
policy entry for a source row `s`, given the matched current target row's
attributes (`old`, absent for a new key). -/
def colOut (cascade : Bool) (s : SrcRow) (old : Option AttrMap) (fresh : Bool) :
    String × SCDType → AttrMap
  | (n, .scd0) => [(.original n, scd0Val s old n)]
  | (n, .scd1) => [(.currentOf n, srcVal s n)]
  | (n, .scd2) => [(.src n, srcVal s n)]
  | (n, .scd3 alt) => [(.src n, srcVal s n), (.src alt, scd3Alt cascade old fresh n alt)]
  | (n, .scd6) => [(.shadowCur n, srcVal s n), (.shadowHist n, srcVal s n)]
  | (n, .scd7) => [(.src n, srcVal s n)]

/-- Modelled from the spec (§4.9): the attribute map of an output row is the
column-union of all handler outputs. -/
def buildAttrsL (cascade : Bool) (s : SrcRow) (old : Option AttrMap) (fresh : Bool) :
    List (String × SCDType) → AttrMap
  | [] => []
  | e :: rest => colOut cascade s old fresh e ++ buildAttrsL cascade s old fresh rest

/-- Modelled from the spec (§4.9): handler outputs merged into one row. -/
def buildAttrs (P : Policy) (s : SrcRow) (old : Option AttrMap) (fresh : Bool) : AttrMap :=
  buildAttrsL P.scd3Cascade s old fresh P.cols

/-- Modelled from the spec (§4.2): null-aware comparison of one declared
column between the source row and the matched current target row. -/
def entryUnchanged (s : SrcRow) (c : Row) : String × SCDType → Bool
  | (n, .scd0) => decide (srcVal s n = getAttr c.attrs (.original n))
  | (n, .scd1) => decide (srcVal s n = getAttr c.attrs (.currentOf n))
  | (n, .scd2) => decide (srcVal s n = getAttr c.attrs (.src n))
  | (n, .scd3 _) => decide (srcVal s n = getAttr c.attrs (.src n))
  | (n, .scd6) => decide (srcVal s n = getAttr c.attrs (.shadowCur n))
  | (n, .scd7) => decide (srcVal s n = getAttr c.attrs (.src n))

/-- Modelled from the spec (§4.2): a matched key is `UNCHANGED` when all
declared-policy columns are equal, `CHANGED` otherwise. -/
def rowUnchanged (P : Policy) (s : SrcRow) (c : Row) : Bool :=
  P.cols.all (entryUnchanged s c)

/-- Rows of the snapshot belonging to durable key `k`, in snapshot order. -/
def keyRows (snap : List Row) (k : Nat) : List Row :=
  snap.filter (fun r => r.key == k)

/-- Modelled from the spec (§4.2): the current (CurrentFlag = true) target row
of durable key `k`, if any. -/
def findCurrent (snap : List Row) (k : Nat) : Option Row :=
  (keyRows snap k).find? (fun r => r.isCur)

/-- Modelled from the spec (§2, surrogate key generator): a surrogate key
not yet used in the snapshot. -/
def freshSk (snap : List Row) : Nat :=
  snap.foldr (fun r m => max r.sk m) 0 + 1

/-- Modelled from the spec (§4.5): closing the current row of key `k` —
`effective_to` becomes the merge timestamp and the current flag is cleared. -/
def closeRow (k t : Nat) (r : Row) : Row :=
  if r.key == k && r.isCur then { r with effTo := t, isCur := false } else r

/-- Modelled from the spec (§4.6, second pass): rewrite each type-6 shadow
`_current` column to the source batch value. -/
def scd6PassL (s : SrcRow) : List (String × SCDType) → AttrMap → AttrMap
  | [], a => a
  | (n, .scd6) :: rest, a => scd6PassL s rest (setAttr (.shadowCur n) (srcVal s n) a)
  | _ :: rest, a => scd6PassL s rest a

/-- Modelled from the spec (§4.7): on rows of the changed durable key, rewrite
every type-6 `_current` shadow column; other rows are untouched. -/
def passRow (P : Policy) (s : SrcRow) (k : Nat) (r : Row) : Row :=
  if r.key == k then { r with attrs := scd6PassL s P.cols r.attrs } else r

/-- Modelled from the spec (§4.7): second pass over the whole snapshot for one
changed durable key. -/
def secondPass (P : Policy) (s : SrcRow) (k : Nat) (snap : List Row) : List Row :=
  snap.map (passRow P s k)

/-- Modelled from the spec (§4.5): the inserted row for a `NEW` key. -/
def newRow (P : Policy) (t : Nat) (s : SrcRow) (sk : Nat) : Row :=
  { key := s.key, sk := sk, effFrom := t, effTo := sentinel, isCur := true,
    attrs := buildAttrs P s none true }

/-- Modelled from the spec (§4.5): the appended (or, on a same-timestamp
re-merge, in-place rewritten) version row for a `CHANGED` key. -/
def updRow (P : Policy) (t : Nat) (s : SrcRow) (old : AttrMap) (fresh : Bool) (sk : Nat) : Row :=
  { key := s.key, sk := sk, effFrom := t, effTo := sentinel, isCur := true,
    attrs := buildAttrs P s (some old) fresh }

/-- Replace the current row of key `k` by `nr` (same-timestamp tie-break). -/
def replaceCur (k : Nat) (nr : Row) (r : Row) : Row :=
  if r.key == k && r.isCur then nr else r

/-- Modelled from the spec (§4.2–§4.9): process one source record against the
snapshot.  `NEW` keys insert one current row; `UNCHANGED` keys change nothing;
`CHANGED` keys close the current row and append a fresh version, except that a
key already merged at the same timestamp is rewritten in place (tie-break rule
of §4.5), and the type-6 second pass then rewrites the `_current` shadows on
all rows of the key. -/
def mergeKey (P : Policy) (t : Nat) (snap : List Row) (s : SrcRow) : List Row :=
  match findCurrent snap s.key with
  | none => snap ++ [newRow P t s (freshSk snap)]
  | some c =>
    if rowUnchanged P s c then snap
    else if c.effFrom = t then
      secondPass P s s.key (snap.map (replaceCur s.key (updRow P t s c.attrs false c.sk)))
    else
      secondPass P s s.key
        ((snap.map (closeRow s.key t)) ++ [updRow P t s c.attrs true (freshSk snap)])

/-- Modelled from the spec (§4.9, §7): the merge orchestrator.  The source
batch must have at most one row per durable key (`DuplicateSourceKey`), the
declared policies must not write the same output column twice
(`PolicyConflict`), and the target must have at most one current row per key
(`DuplicateCurrentRow`); then every source record is merged in order.
This definition carries the name of the unimplemented stub in
src/scd_merge.py and formalizes the semantics the spec documents for it. -/
def scd_merge (S : List SrcRow) (T : List Row) (P : Policy) (t : Nat) :
    Except MergeError (List Row) :=
  if hasDupB (S.map (fun s => s.key)) then .error .DuplicateSourceKey
  else if hasDupB (outCols P) then .error .PolicyConflict
  else if hasDupB ((T.filter (fun r => r.isCur)).map (fun r => r.key)) then
    .error .DuplicateCurrentRow
  else .ok (S.foldl (mergeKey P t) T)

/-- View of a snapshot row as a source record (durable key and attributes);
used to state the literal re-merge composition of spec §8. -/
def rowToSrc (r : Row) : SrcRow := { key := r.key, attrs := r.attrs }

/-! ### Interval invariant (spec §3, §8) -/

/-- Consecutive rows (in snapshot order) of one key chain: each row's
`effective_to` equals the next row's `effective_from` (contiguous, no gaps). -/
def chainedB : List Row → Bool
  | [] => true
  | [_] => true
  | a :: b :: rest => (a.effTo == b.effFrom) && chainedB (b :: rest)

/-- The interval invariant of one key's row list at merge timestamp `t`:
contiguous chained intervals, exactly one current row when nonempty, nonempty
intervals starting no later than `t`, the current row closed by the sentinel,
and the current row last. -/
def rowsOk (t : Nat) (rows : List Row) : Prop :=
  chainedB rows = true ∧
  rows.countP (fun r => r.isCur) = (if rows.isEmpty then 0 else 1) ∧
  (∀ r ∈ rows, r.effFrom < r.effTo ∧ r.effFrom ≤ t ∧ (r.isCur = true → r.effTo = sentinel)) ∧
  (rows.getLast?.map (fun r => r.isCur)).getD true = true

/-- The interval invariant over a whole snapshot (spec §3: target rows are
created only by the orchestrator's historization step, so a well-formed target
satisfies it for every durable key). -/
def snapOk (t : Nat) (snap : List Row) : Prop :=
  ∀ k ∈ snap.map (fun r => r.key), rowsOk t (keyRows snap k)

instance (t : Nat) (rows : List Row) : Decidable (rowsOk t rows) := by
  unfold rowsOk
  infer_instance

instance (t : Nat) (snap : List Row) : Decidable (snapOk t snap) := by
  unfold snapOk
  infer_instance

/-- The type-6 shadow invariant for column `n` (spec §4.7, §8): on every row
of a durable key, the `<n>_current` shadow column holds the same value as on
the key's current row. -/
def shadowOk (n : String) (snap : List Row) : Prop :=
  ∀ k ∈ snap.map (fun r => r.key), ∀ c ∈ (findCurrent snap k).toList,
    ∀ r ∈ keyRows snap k,
      getAttr r.attrs (.shadowCur n) = getAttr c.attrs (.shadowCur n)

instance (n : String) (snap : List Row) : Decidable (shadowOk n snap) := by
  unfold shadowOk
  infer_instance

/-! ### Concrete example data (used to witness the theorems) -/

/-- Example policy: one type-2 column, as in spec §8's example. -/
def exP2 : Policy := { cols := [("credit_score", SCDType.scd2)], scd3Cascade := false }

/-- Example source row: customer 1 with a new credit score. -/
def exSrow : SrcRow := { key := 1, attrs := [(ColName.src "credit_score", some 730)] }

/-- Example source batch: customer 1 with a new credit score. -/
def exS : List SrcRow := [exSrow]

/-- Example target snapshot: one current row for customer 1. -/
def exT : List Row :=
  [{ key := 1, sk := 1, effFrom := 0, effTo := sentinel, isCur := true,
     attrs := [(ColName.src "credit_score", some 630)] }]

/-- The merged snapshot of `exS` into `exT` at timestamp 5: the old row closed
at 5, a new current row effective from 5. -/
def exM : List Row :=
  [{ key := 1, sk := 1, effFrom := 0, effTo := 5, isCur := false,
     attrs := [(ColName.src "credit_score", some 630)] },
   { key := 1, sk := 2, effFrom := 5, effTo := sentinel, isCur := true,
     attrs := [(ColName.src "credit_score", some 730)] }]

/-- Example type-0 policy. -/
def exP0 : Policy := { cols := [("credit_score", SCDType.scd0)], scd3Cascade := false }

/-- Example type-0 target row: the originally recorded credit score. -/
def exR0 : Row :=
  { key := 1, sk := 1, effFrom := 0, effTo := sentinel, isCur := true,
    attrs := [(ColName.original "credit_score", some 630)] }

/-- Example type-0 target snapshot. -/
def exT0 : List Row := [exR0]

/-- Merged snapshot of `exS` into `exT0` under the type-0 policy at 5. -/
def exM0 : List Row :=
  [{ key := 1, sk := 1, effFrom := 0, effTo := 5, isCur := false,
     attrs := [(ColName.original "credit_score", some 630)] },
   { key := 1, sk := 2, effFrom := 5, effTo := sentinel, isCur := true,
     attrs := [(ColName.original "credit_score", some 630)] }]

/-- Example type-1 policy. -/
def exP1 : Policy := { cols := [("credit_score", SCDType.scd1)], scd3Cascade := false }

/-- Example type-1 target snapshot. -/
def exT1 : List Row :=
  [{ key := 1, sk := 1, effFrom := 0, effTo := sentinel, isCur := true,
     attrs := [(ColName.currentOf "credit_score", some 630)] }]

/-- Merged snapshot of `exS` into `exT1` under the type-1 policy at 5. -/
def exM1 : List Row :=
  [{ key := 1, sk := 1, effFrom := 0, effTo := 5, isCur := false,
     attrs := [(ColName.currentOf "credit_score", some 630)] },
   { key := 1, sk := 2, effFrom := 5, effTo := sentinel, isCur := true,
     attrs := [(ColName.currentOf "credit_score", some 730)] }]

/-- Example type-3 policy with alternate column `credit_score_alternate`,
freeze-after-first behaviour. -/
def exP3 : Policy :=
  { cols := [("credit_score", SCDType.scd3 "credit_score_alternate")], scd3Cascade := false }

/-- Example type-3 target row with a null alternate. -/
def exR3 : Row :=
  { key := 1, sk := 1, effFrom := 0, effTo := sentinel, isCur := true,
    attrs := [(ColName.src "credit_score", some 630),
              (ColName.src "credit_score_alternate", none)] }

/-- Example type-3 target snapshot. -/
def exT3 : List Row := [exR3]

/-- Merged snapshot of `exS` into `exT3` under the type-3 policy at 5. -/
def exM3 : List Row :=
  [{ key := 1, sk := 1, effFrom := 0, effTo := 5, isCur := false,
     attrs := [(ColName.src "credit_score", some 630),
               (ColName.src "credit_score_alternate", none)] },
   { key := 1, sk := 2, effFrom := 5, effTo := sentinel, isCur := true,
     attrs := [(ColName.src "credit_score", some 730),
               (ColName.src "credit_score_alternate", some 630)] }]

/-- Example type-6 policy. -/
def exP6 : Policy := { cols := [("credit_score", SCDType.scd6)], scd3Cascade := false }

/-- Example type-6 closed historical row. -/
def exA6 : Row :=
  { key := 1, sk := 0, effFrom := 0, effTo := 2, isCur := false,
    attrs := [(ColName.shadowCur "credit_score", some 630),
              (ColName.shadowHist "credit_score", some 500)] }

/-- Example type-6 current row. -/
def exB6 : Row :=
  { key := 1, sk := 1, effFrom := 2, effTo := sentinel, isCur := true,
    attrs := [(ColName.shadowCur "credit_score", some 630),
              (ColName.shadowHist "credit_score", some 630)] }

/-- Example type-6 target snapshot: one closed and one current row. -/
def exT6 : List Row := [exA6, exB6]

/-- Merged snapshot of `exS` into `exT6` under the type-6 policy at 5: all
three rows carry the new shadow value 730, each keeps its own historical
value. -/
def exM6 : List Row :=
  [{ key := 1, sk := 0, effFrom := 0, effTo := 2, isCur := false,
     attrs := [(ColName.shadowCur "credit_score", some 730),
               (ColName.shadowHist "credit_score", some 500)] },
   { key := 1, sk := 1, effFrom := 2, effTo := 5, isCur := false,
     attrs := [(ColName.shadowCur "credit_score", some 730),
               (ColName.shadowHist "credit_score", some 630)] },
   { key := 1, sk := 2, effFrom := 5, effTo := sentinel, isCur := true,
     attrs := [(ColName.shadowCur "credit_score", some 730),
               (ColName.shadowHist "credit_score", some 730)] }]

/-- The current row of `exM6`. -/
def exC6 : Row :=
  { key := 1, sk := 2, effFrom := 5, effTo := sentinel, isCur := true,
    attrs := [(ColName.shadowCur "credit_score", some 730),
              (ColName.shadowHist "credit_score", some 730)] }

/-! ### Embedding of the stub body of scd_merge (src/scd_merge.py, lines 170–172) -/

/-- A raised Python exception. -/
inductive PyExn : Type
  | nameError (n : String)
  | moduleNotFound (m : String)
deriving DecidableEq

/-- Python name resolution: an unbound name raises `NameError`. -/
def lookupName {α : Type u} (env : List (String × α)) (n : String) : Except PyExn α :=
  match lookupA n env with
  | some v => .ok v
  | none => .error (.nameError n)

/-- The body of `scd_merge` in src/scd_merge.py: the local environment binds
only the three parameters, and the body is `return df_merged`, which resolves
the name `df_merged` in that environment. -/
def scd_merge_stub {α : Type u} (df_source df_target table_params : α) : Except PyExn α :=
  lookupName [("df_source", df_source), ("df_target", df_target),
              ("table_params", table_params)] "df_merged"

/-! ### Embedding of src/add_attributes.py -/

/-- A Python function object: its `__name__` and its behaviour. -/
structure PyFunc (α : Type u) (β : Type v) : Type (max u v) where
  name : String
  impl : α → β

/-- The decorator `add_attr(cls)` of src/add_attributes.py applied to `func`:
`setattr(cls, func.__name__, _wrapper)` where
`_wrapper(*args, **kwargs)` computes `f = func(*args, **kwargs)` and returns
`f`; the decorator then returns `func` itself.  The class's attribute table is
modelled as an association list from attribute name to function. -/
def add_attr {α : Type u} {β : Type v} (cls : List (String × (α → β))) (func : PyFunc α β) :
    PyFunc α β × List (String × (α → β)) :=
  (func, setA func.name (fun args => func.impl args) cls)

/-- A top-level Python statement of src/add_attributes.py, at the granularity
that decides the import behaviour: which names a statement reads (in
evaluation order) and which it binds.  Function bodies are not evaluated at
definition time, so `pyDef` only binds the function's name. -/
inductive Stmt : Type
  | pyImport (module : String) (names : List String)
  | pyDef (n : String)
  | pyExpr (reads : List String)
deriving DecidableEq

/-- Modules importable in every Python environment relevant here: `functools`
is standard library. -/
def stdModules : List String := ["functools"]

/-- Evaluate a list of name reads left to right; the first unbound name
raises `NameError`. -/
def evalReads (env : List String) : List String → Except PyExn Unit
  | [] => .ok ()
  | n :: rest => if n ∈ env then evalReads env rest else .error (.nameError n)

/-- Run the module's top-level statements in order, starting from an
environment of built-ins; a failing statement aborts the import. -/
def runStmts (avail : List String) : List String → List Stmt → Except PyExn (List String)
  | env, [] => .ok env
  | env, .pyImport m ns :: rest =>
    if m ∈ stdModules ++ avail then runStmts avail (ns ++ env) rest
    else .error (.moduleNotFound m)
  | env, .pyDef n :: rest => runStmts avail (n :: env) rest
  | env, .pyExpr reads :: rest =>
    match evalReads env reads with
    | .ok _ => runStmts avail env rest
    | .error e => .error e

/-- The top-level statements of src/add_attributes.py in file order:
the two imports, `def add_attr`, `def custom`,
`DataFrame.custom = property(custom)` (reads `property`, `custom`,
`DataFrame`), the statement `df.custom.add_column3()` (reads `df` first),
the second `def add_attr`, `def dataframe_extension`, and
`DataFrame.dataframe_extension = property(dataframe_extension)`. -/
def addAttributesStmts : List Stmt :=
  [ .pyImport "pyspark.sql.dataframe" ["DataFrame"],
    .pyImport "functools" ["wraps"],
    .pyDef "add_attr",
    .pyDef "custom",
    .pyExpr ["property", "custom", "DataFrame"],
    .pyExpr ["df"],
    .pyDef "add_attr",
    .pyDef "dataframe_extension",
    .pyExpr ["property", "dataframe_extension", "DataFrame"] ]

/-- Importing src/add_attributes.py in an environment whose importable
modules are `avail` (plus the standard library): run the top-level statements
with the built-in `property` bound. -/
def runAddAttributes (avail : List String) : Except PyExn (List String) :=
  runStmts avail ["property"] addAttributesStmts

/-! ### Association-list lemmas -/

theorem lookupA_setA_self {κ : Type u} {β : Type v} [DecidableEq κ] (k : κ) (v : β)
    (l : List (κ × β)) : lookupA k (setA k v l) = some v := by
  induction l with
  | nil => simp [lookupA, setA]
  | cons p rest ih =>
    obtain ⟨m, w⟩ := p
    by_cases h : m = k
    · simp [setA, h, lookupA]
    · simp [setA, h, lookupA, ih]

theorem lookupA_setA_ne {κ : Type u} {β : Type v} [DecidableEq κ] (k k' : κ) (v : β)
    (l : List (κ × β)) (h : k' ≠ k) : lookupA k' (setA k v l) = lookupA k' l := by
  induction l with
  | nil => simp [lookupA, setA, Ne.symm h]
  | cons p rest ih =>
    obtain ⟨m, w⟩ := p
    by_cases hm : m = k
    · subst hm
      simp [setA, lookupA, h, Ne.symm h]
    · simp [setA, hm, lookupA, ih]

theorem setA_eq_self {κ : Type u} {β : Type v} [DecidableEq κ] (k : κ) (v : β)
    (l : List (κ × β)) (h : lookupA k l = some v) : setA k v l = l := by
  induction l with
  | nil => simp [lookupA] at h
  | cons p rest ih =>
    obtain ⟨m, w⟩ := p
    by_cases hm : m = k
    · subst hm
      simp [lookupA] at h
      simp [setA, h]
    · simp [lookupA, hm] at h
      simp [setA, hm, ih h]

theorem hasA_setA_self {κ : Type u} {β : Type v} [DecidableEq κ] (k : κ) (v : β)
    (l : List (κ × β)) : hasA k (setA k v l) = true := by
  induction l with
  | nil => simp [setA, hasA]
  | cons p rest ih =>
    obtain ⟨m, w⟩ := p
    by_cases hm : m = k
    · simp [setA, hm, hasA]
    · simp [setA, hm, hasA, ih]

theorem hasA_setA_ne {κ : Type u} {β : Type v} [DecidableEq κ] (k k' : κ) (v : β)
    (l : List (κ × β)) (h : k' ≠ k) : hasA k' (setA k v l) = hasA k' l := by
  induction l with
  | nil => simp [setA, hasA, Ne.symm h]
  | cons p rest ih =>
    obtain ⟨m, w⟩ := p
    by_cases hm : m = k
    · subst hm
      simp [setA, hasA, h, Ne.symm h]
    · simp [setA, hm, hasA, ih]

theorem lookupA_isSome_of_hasA {κ : Type u} {β : Type v} [DecidableEq κ] (k : κ)
    (l : List (κ × β)) (h : hasA k l = true) : (lookupA k l).isSome = true := by
  induction l with
  | nil => simp [hasA] at h
  | cons p rest ih =>
    obtain ⟨m, w⟩ := p
    by_cases hm : m = k
    · simp [lookupA, hm]
    · simp [hasA, hm] at h
      simp [lookupA, hm, ih h]

theorem lookupA_append_left {κ : Type u} {β : Type v} [DecidableEq κ] (k : κ)
    (l₁ l₂ : List (κ × β)) (h : hasA k l₁ = true) :
    lookupA k (l₁ ++ l₂) = lookupA k l₁ := by
  induction l₁ with
  | nil => simp [hasA] at h
  | cons p rest ih =>
    obtain ⟨m, w⟩ := p
    by_cases hm : m = k
    · simp [lookupA, hm]
    · simp [hasA, hm] at h
      simp [lookupA, hm, ih h]

theorem lookupA_append_right {κ : Type u} {β : Type v} [DecidableEq κ] (k : κ)
    (l₁ l₂ : List (κ × β)) (h : hasA k l₁ = false) :
    lookupA k (l₁ ++ l₂) = lookupA k l₂ := by
  induction l₁ with
  | nil => simp
  | cons p rest ih =>
    obtain ⟨m, w⟩ := p
    by_cases hm : m = k
    · simp [hasA, hm] at h
    · simp [hasA, hm] at h
      simp [lookupA, hm, ih h]

theorem hasA_iff_mem_keys {κ : Type u} {β : Type v} [DecidableEq κ] (k : κ)
    (l : List (κ × β)) : hasA k l = true ↔ k ∈ l.map Prod.fst := by
  induction l with
  | nil => simp [hasA]
  | cons p rest ih =>
    obtain ⟨m, w⟩ := p
    by_cases hm : m = k
    · simp [hasA, hm]
    · simp [hasA, hm, ih, Ne.symm hm]

theorem hasDupB_eq_false_iff {κ : Type u} [DecidableEq κ] (l : List κ) :
    hasDupB l = false ↔ l.Nodup := by
  induction l with
  | nil => simp [hasDupB]
  | cons a rest ih =>
    by_cases h : a ∈ rest
    · simp [hasDupB, h]
    · simp [hasDupB, h, ih]

/-! ### getAttr / setAttr lemmas -/

theorem getAttr_setAttr_self (c : ColName) (v : Val) (a : AttrMap) :
    getAttr (setAttr c v a) c = v := by
  simp [getAttr, setAttr, lookupA_setA_self]

theorem getAttr_setAttr_ne (c c' : ColName) (v : Val) (a : AttrMap) (h : c' ≠ c) :
    getAttr (setAttr c v a) c' = getAttr a c' := by
  simp [getAttr, setAttr, lookupA_setA_ne _ _ _ _ h]

theorem setAttr_eq_self (c : ColName) (v : Val) (a : AttrMap)
    (hhas : hasA c a = true) (hval : getAttr a c = v) : setAttr c v a = a := by
  have hsome := lookupA_isSome_of_hasA c a hhas
  obtain ⟨w, hw⟩ := Option.isSome_iff_exists.mp hsome
  have : w = v := by simpa [getAttr, hw] using hval
  subst this
  exact setA_eq_self c w a hw

theorem hasA_setAttr (c c' : ColName) (v : Val) (a : AttrMap) :
    hasA c' (setAttr c v a) = (if c' = c then true else hasA c' a) := by
  by_cases h : c' = c
  · subst h; simp [setAttr, hasA_setA_self]
  · simp [setAttr, h, hasA_setA_ne _ _ _ _ h]

/-! ### Lemmas on built attribute maps -/

theorem colOut_keys (cascade : Bool) (s : SrcRow) (old : Option AttrMap) (fresh : Bool)
    (e : String × SCDType) :
    (colOut cascade s old fresh e).map Prod.fst = colNamesOf e := by
  obtain ⟨n, ty⟩ := e
  cases ty <;> simp [colOut, colNamesOf]

theorem buildAttrsL_keys (cascade : Bool) (s : SrcRow) (old : Option AttrMap) (fresh : Bool)
    (es : List (String × SCDType)) :
    (buildAttrsL cascade s old fresh es).map Prod.fst = outColsL es := by
  induction es with
  | nil => simp [buildAttrsL, outColsL]
  | cons e rest ih => simp [buildAttrsL, outColsL, colOut_keys, ih]

theorem hasA_buildAttrsL (cascade : Bool) (s : SrcRow) (old : Option AttrMap) (fresh : Bool)
    (es : List (String × SCDType)) (c : ColName) :
    hasA c (buildAttrsL cascade s old fresh es) = true ↔ c ∈ outColsL es := by
  rw [hasA_iff_mem_keys, buildAttrsL_keys]

theorem mem_outColsL (es : List (String × SCDType)) (e : String × SCDType) (c : ColName)
    (he : e ∈ es) (hc : c ∈ colNamesOf e) : c ∈ outColsL es := by
  induction es with
  | nil => simp at he
  | cons e' rest ih =>
    rcases List.mem_cons.mp he with h | h
    · subst h
      exact List.mem_append.mpr (Or.inl hc)
    · exact List.mem_append.mpr (Or.inr (ih h))

theorem colNamesOf_nodup_of_mem (es : List (String × SCDType)) (e : String × SCDType)
    (he : e ∈ es) (hnd : (outColsL es).Nodup) : (colNamesOf e).Nodup := by
  induction es with
  | nil => simp at he
  | cons e' rest ih =>
    rw [outColsL, List.nodup_append] at hnd
    rcases List.mem_cons.mp he with h | h
    · subst h
      exact hnd.1
    · exact ih h hnd.2.1

theorem getAttr_buildAttrsL (cascade : Bool) (s : SrcRow) (old : Option AttrMap) (fresh : Bool)
    (es : List (String × SCDType)) (e : String × SCDType) (c : ColName)
    (he : e ∈ es) (hc : c ∈ colNamesOf e) (hnd : (outColsL es).Nodup) :
    getAttr (buildAttrsL cascade s old fresh es) c = getAttr (colOut cascade s old fresh e) c := by
  induction es with
  | nil => simp at he
  | cons e' rest ih =>
    rw [outColsL, List.nodup_append] at hnd
    rcases List.mem_cons.mp he with h | h
    · subst h
      have hhas : hasA c (colOut cascade s old fresh e) = true := by
        rw [hasA_iff_mem_keys, colOut_keys]
        exact hc
      rw [buildAttrsL]
      unfold getAttr
      rw [lookupA_append_left _ _ _ hhas]
    · have hmem : c ∈ outColsL rest := mem_outColsL rest e c h hc
      have hnotin : c ∉ colNamesOf e' := fun hin => hnd.2.2 hin hmem
      have hhas : hasA c (colOut cascade s old fresh e') = false := by
        rw [Bool.eq_false_iff]
        intro habs
        rw [hasA_iff_mem_keys, colOut_keys] at habs
        exact hnotin habs
      rw [buildAttrsL]
      unfold getAttr
      rw [lookupA_append_right _ _ _ hhas]
      exact ih h hnd.2.1

theorem getAttr_build_scd0 (cascade : Bool) (s : SrcRow) (old : Option AttrMap) (fresh : Bool)
    (es : List (String × SCDType)) (n : String)
    (he : (n, SCDType.scd0) ∈ es) (hnd : (outColsL es).Nodup) :
    getAttr (buildAttrsL cascade s old fresh es) (.original n) = scd0Val s old n := by
  rw [getAttr_buildAttrsL cascade s old fresh es (n, .scd0) _ he (by simp [colNamesOf]) hnd]
  simp [colOut, getAttr, lookupA]

theorem getAttr_build_scd1 (cascade : Bool) (s : SrcRow) (old : Option AttrMap) (fresh : Bool)
    (es : List (String × SCDType)) (n : String)
    (he : (n, SCDType.scd1) ∈ es) (hnd : (outColsL es).Nodup) :
    getAttr (buildAttrsL cascade s old fresh es) (.currentOf n) = srcVal s n := by
  rw [getAttr_buildAttrsL cascade s old fresh es (n, .scd1) _ he (by simp [colNamesOf]) hnd]
  simp [colOut, getAttr, lookupA]

theorem getAttr_build_scd2 (cascade : Bool) (s : SrcRow) (old : Option AttrMap) (fresh : Bool)
    (es : List (String × SCDType)) (n : String)
    (he : (n, SCDType.scd2) ∈ es) (hnd : (outColsL es).Nodup) :
    getAttr (buildAttrsL cascade s old fresh es) (.src n) = srcVal s n := by
  rw [getAttr_buildAttrsL cascade s old fresh es (n, .scd2) _ he (by simp [colNamesOf]) hnd]
  simp [colOut, getAttr, lookupA]

theorem getAttr_build_scd7 (cascade : Bool) (s : SrcRow) (old : Option AttrMap) (fresh : Bool)
    (es : List (String × SCDType)) (n : String)
    (he : (n, SCDType.scd7) ∈ es) (hnd : (outColsL es).Nodup) :
    getAttr (buildAttrsL cascade s old fresh es) (.src n) = srcVal s n := by
  rw [getAttr_buildAttrsL cascade s old fresh es (n, .scd7) _ he (by simp [colNamesOf]) hnd]
  simp [colOut, getAttr, lookupA]

theorem getAttr_build_scd3_primary (cascade : Bool) (s : SrcRow) (old : Option AttrMap)
    (fresh : Bool) (es : List (String × SCDType)) (n alt : String)
    (he : (n, SCDType.scd3 alt) ∈ es) (hnd : (outColsL es).Nodup) :
    getAttr (buildAttrsL cascade s old fresh es) (.src n) = srcVal s n := by
  rw [getAttr_buildAttrsL cascade s old fresh es (n, .scd3 alt) _ he (by simp [colNamesOf]) hnd]
  simp [colOut, getAttr, lookupA]

theorem getAttr_build_scd3_alt (cascade : Bool) (s : SrcRow) (old : Option AttrMap)
    (fresh : Bool) (es : List (String × SCDType)) (n alt : String)
    (he : (n, SCDType.scd3 alt) ∈ es) (hnd : (outColsL es).Nodup) :
    getAttr (buildAttrsL cascade s old fresh es) (.src alt) = scd3Alt cascade old fresh n alt := by
  have hne : n ≠ alt := by
    have := colNamesOf_nodup_of_mem es (n, .scd3 alt) he hnd
    simp [colNamesOf] at this
    exact this
  rw [getAttr_buildAttrsL cascade s old fresh es (n, .scd3 alt) _ he (by simp [colNamesOf]) hnd]
  simp [colOut, getAttr, lookupA, hne]

theorem getAttr_build_scd6_cur (cascade : Bool) (s : SrcRow) (old : Option AttrMap)
    (fresh : Bool) (es : List (String × SCDType)) (n : String)
    (he : (n, SCDType.scd6) ∈ es) (hnd : (outColsL es).Nodup) :
    getAttr (buildAttrsL cascade s old fresh es) (.shadowCur n) = srcVal s n := by
  rw [getAttr_buildAttrsL cascade s old fresh es (n, .scd6) _ he (by simp [colNamesOf]) hnd]
  simp [colOut, getAttr, lookupA]

theorem getAttr_build_scd6_hist (cascade : Bool) (s : SrcRow) (old : Option AttrMap)
    (fresh : Bool) (es : List (String × SCDType)) (n : String)
    (he : (n, SCDType.scd6) ∈ es) (hnd : (outColsL es).Nodup) :
    getAttr (buildAttrsL cascade s old fresh es) (.shadowHist n) = srcVal s n := by
  rw [getAttr_buildAttrsL cascade s old fresh es (n, .scd6) _ he (by simp [colNamesOf]) hnd]
  simp [colOut, getAttr, lookupA]

theorem buildAttrsL_congr (cascade : Bool) (s : SrcRow) (old₁ old₂ : Option AttrMap)
    (f₁ f₂ : Bool) (es : List (String × SCDType))
    (h : ∀ e ∈ es, colOut cascade s old₁ f₁ e = colOut cascade s old₂ f₂ e) :
    buildAttrsL cascade s old₁ f₁ es = buildAttrsL cascade s old₂ f₂ es := by
  induction es with
  | nil => rfl
  | cons e rest ih =>
    rw [buildAttrsL, buildAttrsL, h e (List.mem_cons_self e rest),
      ih (fun e' he' => h e' (List.mem_cons_of_mem e he'))]

/-! ### Lemmas on the type-6 second pass -/

theorem scd6PassL_nil (s : SrcRow) (a : AttrMap) : scd6PassL s [] a = a := rfl

theorem scd6PassL_cons6 (s : SrcRow) (m : String) (rest : List (String × SCDType)) (a : AttrMap) :
    scd6PassL s ((m, SCDType.scd6) :: rest) a =
      scd6PassL s rest (setAttr (.shadowCur m) (srcVal s m) a) := rfl

theorem scd6PassL_cons0 (s : SrcRow) (m : String) (rest : List (String × SCDType)) (a : AttrMap) :
    scd6PassL s ((m, SCDType.scd0) :: rest) a = scd6PassL s rest a := rfl

theorem scd6PassL_cons1 (s : SrcRow) (m : String) (rest : List (String × SCDType)) (a : AttrMap) :
    scd6PassL s ((m, SCDType.scd1) :: rest) a = scd6PassL s rest a := rfl

theorem scd6PassL_cons2 (s : SrcRow) (m : String) (rest : List (String × SCDType)) (a : AttrMap) :
    scd6PassL s ((m, SCDType.scd2) :: rest) a = scd6PassL s rest a := rfl

theorem scd6PassL_cons3 (s : SrcRow) (m alt : String) (rest : List (String × SCDType))
    (a : AttrMap) : scd6PassL s ((m, SCDType.scd3 alt) :: rest) a = scd6PassL s rest a := rfl

theorem scd6PassL_cons7 (s : SrcRow) (m : String) (rest : List (String × SCDType)) (a : AttrMap) :
    scd6PassL s ((m, SCDType.scd7) :: rest) a = scd6PassL s rest a := rfl

theorem scd6PassL_getAttr_ne (s : SrcRow) (es : List (String × SCDType)) (a : AttrMap)
    (c : ColName) (h : ∀ m, c = ColName.shadowCur m → (m, SCDType.scd6) ∉ es) :
    getAttr (scd6PassL s es a) c = getAttr a c := by
  induction es generalizing a with
  | nil => rfl
  | cons e rest ih =>
    obtain ⟨m, ty⟩ := e
    have hrest : ∀ m', c = ColName.shadowCur m' → (m', SCDType.scd6) ∉ rest := by
      intro m' hc hmem
      exact h m' hc (List.mem_cons_of_mem _ hmem)
    cases ty with
    | scd6 =>
      have hne : c ≠ ColName.shadowCur m := by
        intro hc
        exact h m hc (List.mem_cons_self _ _)
      rw [scd6PassL_cons6, ih _ hrest, getAttr_setAttr_ne _ _ _ _ hne]
    | scd0 => rw [scd6PassL_cons0]; exact ih _ hrest
    | scd1 => rw [scd6PassL_cons1]; exact ih _ hrest
    | scd2 => rw [scd6PassL_cons2]; exact ih _ hrest
    | scd3 alt => rw [scd6PassL_cons3]; exact ih _ hrest
    | scd7 => rw [scd6PassL_cons7]; exact ih _ hrest

theorem scd6PassL_getAttr_cur (s : SrcRow) (es : List (String × SCDType)) (a : AttrMap)
    (n : String) :
    getAttr (scd6PassL s es a) (.shadowCur n) =
      if (n, SCDType.scd6) ∈ es then srcVal s n else getAttr a (.shadowCur n) := by
  induction es generalizing a with
  | nil => simp [scd6PassL_nil]
  | cons e rest ih =>
    obtain ⟨m, ty⟩ := e
    by_cases hmem : (n, SCDType.scd6) ∈ rest
    · cases ty with
      | scd6 => rw [scd6PassL_cons6, ih]; simp [hmem]
      | scd0 => rw [scd6PassL_cons0, ih]; simp [hmem]
      | scd1 => rw [scd6PassL_cons1, ih]; simp [hmem]
      | scd2 => rw [scd6PassL_cons2, ih]; simp [hmem]
      | scd3 alt => rw [scd6PassL_cons3, ih]; simp [hmem]
      | scd7 => rw [scd6PassL_cons7, ih]; simp [hmem]
    · cases ty with
      | scd6 =>
        rw [scd6PassL_cons6, ih, if_neg hmem]
        by_cases hm : m = n
        · subst hm
          simp [getAttr_setAttr_self]
        · have hne : ColName.shadowCur n ≠ ColName.shadowCur m := by
            simp [Ne.symm hm]
          rw [getAttr_setAttr_ne _ _ _ _ hne]
          have hnot : ¬ ((n, SCDType.scd6) ∈ (m, SCDType.scd6) :: rest) := by
            simp [hmem, Ne.symm hm]
          simp [hnot]
      | scd0 => rw [scd6PassL_cons0, ih]; simp [hmem]
      | scd1 => rw [scd6PassL_cons1, ih]; simp [hmem]
      | scd2 => rw [scd6PassL_cons2, ih]; simp [hmem]
      | scd3 alt => rw [scd6PassL_cons3, ih]; simp [hmem]
      | scd7 => rw [scd6PassL_cons7, ih]; simp [hmem]

theorem scd6PassL_hasA_mono (s : SrcRow) (es : List (String × SCDType)) (a : AttrMap)
    (c : ColName) (h : hasA c a = true) : hasA c (scd6PassL s es a) = true := by
  induction es generalizing a with
  | nil => exact h
  | cons e rest ih =>
    obtain ⟨m, ty⟩ := e
    cases ty with
    | scd6 =>
      rw [scd6PassL_cons6]
      refine ih _ ?_
      rw [hasA_setAttr]
      by_cases hc : c = ColName.shadowCur m <;> simp [hc, h]
    | scd0 => rw [scd6PassL_cons0]; exact ih _ h
    | scd1 => rw [scd6PassL_cons1]; exact ih _ h
    | scd2 => rw [scd6PassL_cons2]; exact ih _ h
    | scd3 alt => rw [scd6PassL_cons3]; exact ih _ h
    | scd7 => rw [scd6PassL_cons7]; exact ih _ h

theorem scd6PassL_hasA_cur (s : SrcRow) (es : List (String × SCDType)) (a : AttrMap)
    (n : String) (he : (n, SCDType.scd6) ∈ es) :
    hasA (.shadowCur n) (scd6PassL s es a) = true := by
  induction es generalizing a with
  | nil => simp at he
  | cons e rest ih =>
    obtain ⟨m, ty⟩ := e
    by_cases h : (n, SCDType.scd6) ∈ rest
    · cases ty with
      | scd6 => rw [scd6PassL_cons6]; exact ih _ h
      | scd0 => rw [scd6PassL_cons0]; exact ih _ h
      | scd1 => rw [scd6PassL_cons1]; exact ih _ h
      | scd2 => rw [scd6PassL_cons2]; exact ih _ h
      | scd3 alt => rw [scd6PassL_cons3]; exact ih _ h
      | scd7 => rw [scd6PassL_cons7]; exact ih _ h
    · have heq : (n, SCDType.scd6) = (m, ty) := by
        rcases List.mem_cons.mp he with h' | h'
        · exact h'
        · exact absurd h' h
      obtain ⟨hm, hty⟩ := Prod.mk.injEq .. ▸ heq
      subst hm
      cases hty
      rw [scd6PassL_cons6]
      exact scd6PassL_hasA_mono s rest _ _ (by rw [hasA_setAttr]; simp)

theorem scd6PassL_eq_self (s : SrcRow) (es : List (String × SCDType)) (a : AttrMap)
    (h : ∀ n, (n, SCDType.scd6) ∈ es →
      hasA (.shadowCur n) a = true ∧ getAttr a (.shadowCur n) = srcVal s n) :
    scd6PassL s es a = a := by
  induction es with
  | nil => rfl
  | cons e rest ih =>
    obtain ⟨m, ty⟩ := e
    have hrest : ∀ n, (n, SCDType.scd6) ∈ rest →
        hasA (.shadowCur n) a = true ∧ getAttr a (.shadowCur n) = srcVal s n :=
      fun n hn => h n (List.mem_cons_of_mem _ hn)
    cases ty with
    | scd6 =>
      obtain ⟨hhas, hval⟩ := h m (List.mem_cons_self _ _)
      rw [scd6PassL_cons6, setAttr_eq_self _ _ _ hhas hval]
      exact ih hrest
    | scd0 => rw [scd6PassL_cons0]; exact ih hrest
    | scd1 => rw [scd6PassL_cons1]; exact ih hrest
    | scd2 => rw [scd6PassL_cons2]; exact ih hrest
    | scd3 alt => rw [scd6PassL_cons3]; exact ih hrest
    | scd7 => rw [scd6PassL_cons7]; exact ih hrest

theorem scd6PassL_idem (s : SrcRow) (es : List (String × SCDType)) (a : AttrMap) :
    scd6PassL s es (scd6PassL s es a) = scd6PassL s es a := by
  refine scd6PassL_eq_self s es _ (fun n hn => ⟨scd6PassL_hasA_cur s es a n hn, ?_⟩)
  rw [scd6PassL_getAttr_cur]
  simp [hn]

/-! ### Snapshot framing lemmas -/

theorem map_id_on {α : Type u} (f : α → α) (l : List α) (h : ∀ r ∈ l, f r = r) :
    l.map f = l := by
  induction l with
  | nil => rfl
  | cons a rest ih =>
    rw [List.map_cons, h a (List.mem_cons_self a rest),
      ih (fun r hr => h r (List.mem_cons_of_mem a hr))]

theorem foldl_id_on {α : Type u} {σ : Type v} (f : σ → α → σ) (l : List α) (init : σ)
    (h : ∀ a ∈ l, f init a = init) : l.foldl f init = init := by
  induction l with
  | nil => rfl
  | cons a rest ih =>
    rw [List.foldl_cons, h a (List.mem_cons_self a rest),
      ih (fun a' ha' => h a' (List.mem_cons_of_mem a ha'))]

theorem keyRows_append (l₁ l₂ : List Row) (k : Nat) :
    keyRows (l₁ ++ l₂) k = keyRows l₁ k ++ keyRows l₂ k := by
  simp [keyRows, List.filter_append]

theorem keyRows_map (f : Row → Row) (l : List Row) (k : Nat) (hf : ∀ r, (f r).key = r.key) :
    keyRows (l.map f) k = (keyRows l k).map f := by
  induction l with
  | nil => rfl
  | cons r rest ih =>
    by_cases hk : r.key == k
    · simp [keyRows, List.filter_cons, hf, hk] at ih ⊢
      exact ih
    · simp [keyRows, List.filter_cons, hf, hk] at ih ⊢
      exact ih

theorem keyRows_singleton (r : Row) (k : Nat) :
    keyRows [r] k = if r.key == k then [r] else [] := by
  by_cases h : r.key == k <;> simp [keyRows, List.filter_cons, h]

theorem keyRows_key (snap : List Row) (k : Nat) (r : Row) (hr : r ∈ keyRows snap k) :
    r.key = k := by
  have := List.of_mem_filter hr
  simpa using this

theorem mem_of_mem_keyRows (snap : List Row) (k : Nat) (r : Row) (hr : r ∈ keyRows snap k) :
    r ∈ snap := List.mem_of_mem_filter hr

theorem closeRow_key (k t : Nat) (r : Row) : (closeRow k t r).key = r.key := by
  unfold closeRow
  by_cases h : r.key == k && r.isCur <;> simp [h]

theorem passRow_key (P : Policy) (s : SrcRow) (k : Nat) (r : Row) :
    (passRow P s k r).key = r.key := by
  unfold passRow
  by_cases h : r.key == k <;> simp [h]

theorem passRow_meta (P : Policy) (s : SrcRow) (k : Nat) (r : Row) :
    (passRow P s k r).key = r.key ∧ (passRow P s k r).sk = r.sk ∧
    (passRow P s k r).effFrom = r.effFrom ∧ (passRow P s k r).effTo = r.effTo ∧
    (passRow P s k r).isCur = r.isCur := by
  unfold passRow
  by_cases h : r.key == k <;> simp [h]

theorem replaceCur_key (k : Nat) (nr : Row) (r : Row) (hnr : nr.key = k) :
    (replaceCur k nr r).key = r.key := by
  unfold replaceCur
  by_cases h : r.key == k && r.isCur
  · simp only [h, if_true]
    have hkk : r.key = k := by
      rw [Bool.and_eq_true] at h
      simpa using h.1
    rw [hnr, hkk]
  · simp [h]

/-! ### mergeKey branch lemmas -/

theorem mergeKey_new (P : Policy) (t : Nat) (snap : List Row) (s : SrcRow)
    (hfc : findCurrent snap s.key = none) :
    mergeKey P t snap s = snap ++ [newRow P t s (freshSk snap)] := by
  unfold mergeKey
  rw [hfc]

theorem mergeKey_unchanged (P : Policy) (t : Nat) (snap : List Row) (s : SrcRow) (c : Row)
    (hfc : findCurrent snap s.key = some c) (hu : rowUnchanged P s c = true) :
    mergeKey P t snap s = snap := by
  unfold mergeKey
  rw [hfc]
  simp [hu]

theorem mergeKey_tie (P : Policy) (t : Nat) (snap : List Row) (s : SrcRow) (c : Row)
    (hfc : findCurrent snap s.key = some c) (hu : rowUnchanged P s c = false)
    (hft : c.effFrom = t) :
    mergeKey P t snap s =
      secondPass P s s.key (snap.map (replaceCur s.key (updRow P t s c.attrs false c.sk))) := by
  unfold mergeKey
  rw [hfc]
  simp [hu, hft]

theorem mergeKey_close (P : Policy) (t : Nat) (snap : List Row) (s : SrcRow) (c : Row)
    (hfc : findCurrent snap s.key = some c) (hu : rowUnchanged P s c = false)
    (hft : c.effFrom ≠ t) :
    mergeKey P t snap s =
      secondPass P s s.key
        ((snap.map (closeRow s.key t)) ++ [updRow P t s c.attrs true (freshSk snap)]) := by
  unfold mergeKey
  rw [hfc]
  simp [hu, hft]

theorem mergeKey_keyRows_ne (P : Policy) (t : Nat) (snap : List Row) (s : SrcRow) (k : Nat)
    (hk : s.key ≠ k) : keyRows (mergeKey P t snap s) k = keyRows snap k := by
  have hbeq : ((newRow P t s (freshSk snap)).key == k) = false := by
    simp [newRow, hk]
  match hfc : findCurrent snap s.key with
  | none =>
    rw [mergeKey_new P t snap s hfc, keyRows_append]
    rw [keyRows_singleton, hbeq]
    simp
  | some c =>
    by_cases hu : rowUnchanged P s c
    · rw [mergeKey_unchanged P t snap s c hfc hu]
    · have hukey : ∀ (a : AttrMap) (f : Bool) (sk : Nat), (updRow P t s a f sk).key = s.key := by
        intro a f sk
        rfl
      have hpass : (keyRows snap k).map (passRow P s s.key) = keyRows snap k := by
        apply map_id_on
        intro r hr
        have hk₀ : r.key = k := keyRows_key snap k r hr
        unfold passRow
        simp [hk₀, Ne.symm hk]
      by_cases hft : c.effFrom = t
      · rw [mergeKey_tie P t snap s c hfc (Bool.eq_false_iff.mpr hu) hft]
        unfold secondPass
        rw [keyRows_map _ _ _ (passRow_key P s s.key),
          keyRows_map _ _ _ (fun r => replaceCur_key s.key _ r (hukey _ _ _))]
        have hrep : (keyRows snap k).map (replaceCur s.key (updRow P t s c.attrs false c.sk)) =
            keyRows snap k := by
          apply map_id_on
          intro r hr
          have hk₀ : r.key = k := keyRows_key snap k r hr
          unfold replaceCur
          simp [hk₀, Ne.symm hk]
        rw [hrep, hpass]
      · rw [mergeKey_close P t snap s c hfc (Bool.eq_false_iff.mpr hu) hft]
        unfold secondPass
        rw [keyRows_map _ _ _ (passRow_key P s s.key), keyRows_append,
          keyRows_map _ _ _ (closeRow_key s.key t), keyRows_singleton]
        have hne : ((updRow P t s c.attrs true (freshSk snap)).key == k) = false := by
          simp [updRow, hk]
        rw [hne]
        simp only [Bool.false_eq_true, if_false, List.append_nil]
        have hclose : (keyRows snap k).map (closeRow s.key t) = keyRows snap k := by
          apply map_id_on
          intro r hr
          have hk₀ : r.key = k := keyRows_key snap k r hr
          unfold closeRow
          simp [hk₀, Ne.symm hk]
        rw [hclose, hpass]

theorem foldl_keyRows_ne (P : Policy) (t : Nat) (S : List SrcRow) (T : List Row) (k : Nat)
    (h : ∀ s ∈ S, s.key ≠ k) :
    keyRows (S.foldl (mergeKey P t) T) k = keyRows T k := by
  induction S generalizing T with
  | nil => rfl
  | cons s rest ih =>
    rw [List.foldl_cons, ih _ (fun s' hs' => h s' (List.mem_cons_of_mem s hs')),
      mergeKey_keyRows_ne P t T s k (h s (List.mem_cons_self s rest))]

theorem foldl_keyRows_track (P : Policy) (t : Nat) (S : List SrcRow) (T : List Row) (s : SrcRow)
    (hnd : (S.map SrcRow.key).Nodup) (hs : s ∈ S) :
    ∃ snap : List Row, keyRows snap s.key = keyRows T s.key ∧
      keyRows (S.foldl (mergeKey P t) T) s.key = keyRows (mergeKey P t snap s) s.key := by
  induction S generalizing T with
  | nil => simp at hs
  | cons s' rest ih =>
    rw [List.map_cons, List.nodup_cons] at hnd
    rcases List.mem_cons.mp hs with h | h
    · subst h
      refine ⟨T, rfl, ?_⟩
      rw [List.foldl_cons]
      refine foldl_keyRows_ne P t rest (mergeKey P t T s) s.key ?_
      intro u hu hku
      exact hnd.1 (hku ▸ List.mem_map_of_mem SrcRow.key hu)
    · have hne : s'.key ≠ s.key := by
        intro heq
        exact hnd.1 (heq ▸ List.mem_map_of_mem SrcRow.key h)
      obtain ⟨snap, h1, h2⟩ := ih (mergeKey P t T s') hnd.2 h
      refine ⟨snap, ?_, ?_⟩
      · rw [h1, mergeKey_keyRows_ne P t T s' s.key hne]
      · rw [List.foldl_cons]
        exact h2

/-! ### scd_merge success elimination -/

theorem scd_merge_ok_elim (S : List SrcRow) (T : List Row) (P : Policy) (t : Nat)
    (M : List Row) (h : scd_merge S T P t = .ok M) :
    hasDupB (S.map (fun s => s.key)) = false ∧ hasDupB (outCols P) = false ∧
    hasDupB ((T.filter (fun r => r.isCur)).map (fun r => r.key)) = false ∧
    M = S.foldl (mergeKey P t) T := by
  unfold scd_merge at h
  by_cases h1 : hasDupB (S.map (fun s => s.key))
  · rw [if_pos h1] at h
    exact absurd h (by simp)
  · rw [if_neg h1] at h
    by_cases h2 : hasDupB (outCols P)
    · rw [if_pos h2] at h
      exact absurd h (by simp)
    · rw [if_neg h2] at h
      by_cases h3 : hasDupB ((T.filter (fun r => r.isCur)).map (fun r => r.key))
      · rw [if_pos h3] at h
        exact absurd h (by simp)
      · rw [if_neg h3] at h
        refine ⟨Bool.eq_false_iff.mpr h1, Bool.eq_false_iff.mpr h2,
          Bool.eq_false_iff.mpr h3, ?_⟩
        exact (Except.ok.injEq .. ▸ h).symm

/-! ### findCurrent after a merge step -/

theorem find?_append_none {α : Type u} (p : α → Bool) (l₁ l₂ : List α)
    (h : l₁.find? p = none) : (l₁ ++ l₂).find? p = l₂.find? p := by
  induction l₁ with
  | nil => rfl
  | cons a rest ih =>
    match hp : p a with
    | true =>
      rw [List.find?_cons_of_pos _ hp] at h
      simp at h
    | false =>
      rw [List.find?_cons_of_neg _ (by simp [hp])] at h
      rw [List.cons_append, List.find?_cons_of_neg _ (by simp [hp])]
      exact ih h

theorem find?_map_pred {α : Type u} (p : α → Bool) (f : α → α) (l : List α)
    (hf : ∀ r, p (f r) = p r) : (l.map f).find? p = (l.find? p).map f := by
  induction l with
  | nil => rfl
  | cons a rest ih =>
    rw [List.map_cons]
    match hp : p a with
    | true =>
      rw [List.find?_cons_of_pos _ hp, List.find?_cons_of_pos _ ((hf a).trans hp)]
      rfl
    | false =>
      rw [List.find?_cons_of_neg _ (by rw [hf a]; simp [hp]),
        List.find?_cons_of_neg _ (by simp [hp])]
      exact ih

theorem newRow_isCur (P : Policy) (t : Nat) (s : SrcRow) (sk : Nat) :
    (newRow P t s sk).isCur = true := rfl

theorem updRow_isCur (P : Policy) (t : Nat) (s : SrcRow) (a : AttrMap) (f : Bool) (sk : Nat) :
    (updRow P t s a f sk).isCur = true := rfl

theorem closeRow_isCur (k t : Nat) (r : Row) (hr : r.key = k) :
    (closeRow k t r).isCur = false := by
  unfold closeRow
  by_cases hc : r.isCur
  · simp [hr, hc]
  · simp [hr, hc]

theorem passRow_attrs_self (P : Policy) (s : SrcRow) (r : Row) (hr : r.key = s.key) :
    passRow P s s.key r = { r with attrs := scd6PassL s P.cols r.attrs } := by
  unfold passRow
  simp [hr]

theorem mergeKey_findCurrent_new (P : Policy) (t : Nat) (snap : List Row) (s : SrcRow)
    (hfc : findCurrent snap s.key = none) :
    findCurrent (mergeKey P t snap s) s.key = some (newRow P t s (freshSk snap)) := by
  rw [mergeKey_new P t snap s hfc]
  unfold findCurrent at hfc ⊢
  rw [keyRows_append, keyRows_singleton]
  have : ((newRow P t s (freshSk snap)).key == s.key) = true := by simp [newRow]
  rw [this, if_pos rfl, find?_append_none _ _ _ hfc]
  simp [newRow_isCur]

theorem find?_isCur_replaceCur (rows : List Row) (k : Nat) (u c : Row)
    (hu : u.isCur = true) (hkeys : ∀ r ∈ rows, r.key = k)
    (hfind : rows.find? (fun r => r.isCur) = some c) :
    (rows.map (replaceCur k u)).find? (fun r => r.isCur) = some u := by
  induction rows with
  | nil => simp at hfind
  | cons r rest ih =>
    rw [List.map_cons]
    match hp : r.isCur with
    | true =>
      have hrep : replaceCur k u r = u := by
        unfold replaceCur
        simp [hkeys r (List.mem_cons_self r rest), hp]
      rw [hrep, List.find?_cons_of_pos _ hu]
    | false =>
      rw [List.find?_cons_of_neg _ (by simp [hp])] at hfind
      have hrep : replaceCur k u r = r := by
        unfold replaceCur
        simp [hp]
      rw [hrep, List.find?_cons_of_neg _ (by simp [hp])]
      exact ih (fun r' hr' => hkeys r' (List.mem_cons_of_mem r hr')) hfind

theorem mergeKey_findCurrent_tie (P : Policy) (t : Nat) (snap : List Row) (s : SrcRow) (c : Row)
    (hfc : findCurrent snap s.key = some c) (hu : rowUnchanged P s c = false)
    (hft : c.effFrom = t) :
    findCurrent (mergeKey P t snap s) s.key =
      some (passRow P s s.key (updRow P t s c.attrs false c.sk)) := by
  rw [mergeKey_tie P t snap s c hfc hu hft]
  unfold secondPass findCurrent
  rw [keyRows_map _ _ _ (passRow_key P s s.key),
    keyRows_map _ _ _ (fun r => replaceCur_key s.key _ r rfl)]
  rw [find?_map_pred _ _ _ (fun r => (passRow_meta P s s.key r).2.2.2.2)]
  rw [find?_isCur_replaceCur (keyRows snap s.key) s.key _ c rfl
    (fun r hr => keyRows_key _ _ r hr) hfc]
  rfl

theorem mergeKey_findCurrent_close (P : Policy) (t : Nat) (snap : List Row) (s : SrcRow) (c : Row)
    (hfc : findCurrent snap s.key = some c) (hu : rowUnchanged P s c = false)
    (hft : c.effFrom ≠ t) :
    findCurrent (mergeKey P t snap s) s.key =
      some (passRow P s s.key (updRow P t s c.attrs true (freshSk snap))) := by
  rw [mergeKey_close P t snap s c hfc hu hft]
  unfold secondPass findCurrent
  rw [keyRows_map _ _ _ (passRow_key P s s.key), keyRows_append,
    keyRows_map _ _ _ (closeRow_key s.key t), keyRows_singleton]
  have hukey : ((updRow P t s c.attrs true (freshSk snap)).key == s.key) = true := by
    simp [updRow]
  rw [hukey, if_pos rfl]
  rw [find?_map_pred _ _ _ (fun r => (passRow_meta P s s.key r).2.2.2.2)]
  have hnone : ((keyRows snap s.key).map (closeRow s.key t)).find? (fun r => r.isCur) = none := by
    rw [List.find?_eq_none]
    intro r hr
    rw [List.mem_map] at hr
    obtain ⟨r₀, hr₀, hrr⟩ := hr
    rw [← hrr]
    simp [closeRow_isCur s.key t r₀ (keyRows_key snap s.key r₀ hr₀)]
  rw [find?_append_none _ _ _ hnone,
    List.find?_cons_of_pos _ (updRow_isCur P t s c.attrs true (freshSk snap))]
  rfl

/-! ### Value of the current row after a merge -/

theorem rowUnchanged_entry (P : Policy) (s : SrcRow) (c : Row) (e : String × SCDType)
    (he : e ∈ P.cols) (hu : rowUnchanged P s c = true) : entryUnchanged s c e = true := by
  unfold rowUnchanged at hu
  exact List.all_eq_true.mp hu e he

theorem merge_matched_current (P : Policy) (t : Nat) (S : List SrcRow) (T : List Row)
    (M : List Row) (s : SrcRow) (c : Row) (hok : scd_merge S T P t = .ok M) (hs : s ∈ S)
    (hc : findCurrent T s.key = some c) :
    (rowUnchanged P s c = true ∧ findCurrent M s.key = some c) ∨
    (rowUnchanged P s c = false ∧ ∃ sk, findCurrent M s.key =
      some (passRow P s s.key (updRow P t s c.attrs (decide (¬ c.effFrom = t)) sk))) := by
  obtain ⟨hd1, hd2, hd3, hM⟩ := scd_merge_ok_elim S T P t M hok
  have hnd : (S.map SrcRow.key).Nodup := by
    rw [← hasDupB_eq_false_iff]
    exact hd1
  obtain ⟨snap, hkr, hfold⟩ := foldl_keyRows_track P t S T s hnd hs
  have hcs : findCurrent snap s.key = some c := by
    unfold findCurrent
    rw [hkr]
    exact hc
  have hMk : findCurrent M s.key = findCurrent (mergeKey P t snap s) s.key := by
    unfold findCurrent
    rw [hM, hfold]
  by_cases hu : rowUnchanged P s c
  · left
    refine ⟨hu, ?_⟩
    rw [hMk, mergeKey_unchanged P t snap s c hcs hu]
    exact hcs
  · right
    refine ⟨Bool.eq_false_iff.mpr hu, ?_⟩
    by_cases hft : c.effFrom = t
    · refine ⟨c.sk, ?_⟩
      rw [hMk, mergeKey_findCurrent_tie P t snap s c hcs (Bool.eq_false_iff.mpr hu) hft]
      simp [hft]
    · refine ⟨freshSk snap, ?_⟩
      rw [hMk, mergeKey_findCurrent_close P t snap s c hcs (Bool.eq_false_iff.mpr hu) hft]
      simp [hft]

theorem merge_new_current (P : Policy) (t : Nat) (S : List SrcRow) (T : List Row)
    (M : List Row) (s : SrcRow) (hok : scd_merge S T P t = .ok M) (hs : s ∈ S)
    (hc : findCurrent T s.key = none) :
    ∃ sk, findCurrent M s.key = some (newRow P t s sk) := by
  obtain ⟨hd1, hd2, hd3, hM⟩ := scd_merge_ok_elim S T P t M hok
  have hnd : (S.map SrcRow.key).Nodup := by
    rw [← hasDupB_eq_false_iff]
    exact hd1
  obtain ⟨snap, hkr, hfold⟩ := foldl_keyRows_track P t S T s hnd hs
  have hcs : findCurrent snap s.key = none := by
    unfold findCurrent
    rw [hkr]
    exact hc
  refine ⟨freshSk snap, ?_⟩
  have hMk : findCurrent M s.key = findCurrent (mergeKey P t snap s) s.key := by
    unfold findCurrent
    rw [hM, hfold]
  rw [hMk, mergeKey_findCurrent_new P t snap s hcs]

theorem merge_untouched_key (P : Policy) (t : Nat) (S : List SrcRow) (T : List Row)
    (M : List Row) (k : Nat) (hok : scd_merge S T P t = .ok M)
    (hk : k ∉ S.map (fun s => s.key)) : keyRows M k = keyRows T k := by
  obtain ⟨-, -, -, hM⟩ := scd_merge_ok_elim S T P t M hok
  rw [hM]
  refine foldl_keyRows_ne P t S T k ?_
  intro s hs heq
  exact hk (heq ▸ List.mem_map_of_mem (fun s => s.key) hs)

theorem getAttr_passRow_updRow (P : Policy) (t : Nat) (s : SrcRow) (a : AttrMap) (f : Bool)
    (sk : Nat) (c₀ : ColName) (hns : ∀ m, c₀ = ColName.shadowCur m → (m, SCDType.scd6) ∉ P.cols) :
    getAttr (passRow P s s.key (updRow P t s a f sk)).attrs c₀ =
      getAttr (buildAttrs P s (some a) f) c₀ := by
  rw [passRow_attrs_self P s _ rfl]
  exact scd6PassL_getAttr_ne s P.cols _ c₀ hns

/-! ### Claim theorems: type-0, type-1, type-3 column behaviour -/

/-- C4: for every durable key present in both the source batch and the target
snapshot, the merged snapshot's value of a column declared SCD type 0 (the
`original_<n>` column) equals the prior target value, and never equals a
differing new source value. -/
theorem scd0_immutable_on_matched_keys
    (P : Policy) (t : Nat) (S : List SrcRow) (T M : List Row) (s : SrcRow) (c : Row) (n : String)
    (hok : scd_merge S T P t = .ok M) (hs : s ∈ S)
    (he : (n, SCDType.scd0) ∈ P.cols)
    (hc : findCurrent T s.key = some c) :
    ∃ u, findCurrent M s.key = some u ∧
      getAttr u.attrs (.original n) = getAttr c.attrs (.original n) ∧
      (srcVal s n ≠ getAttr c.attrs (.original n) →
        getAttr u.attrs (.original n) ≠ srcVal s n) := by
  have hnd : (outColsL P.cols).Nodup := by
    rw [← hasDupB_eq_false_iff]
    exact (scd_merge_ok_elim S T P t M hok).2.1
  rcases merge_matched_current P t S T M s c hok hs hc with ⟨-, hfind⟩ | ⟨-, sk, hfind⟩
  · exact ⟨c, hfind, rfl, fun hne => Ne.symm hne⟩
  · refine ⟨_, hfind, ?_⟩
    have hval : getAttr (passRow P s s.key
        (updRow P t s c.attrs (decide (¬ c.effFrom = t)) sk)).attrs (.original n) =
        getAttr c.attrs (.original n) := by
      rw [getAttr_passRow_updRow P t s c.attrs _ sk (.original n)
        (fun m h => absurd h (by simp))]
      unfold buildAttrs
      rw [getAttr_build_scd0 P.scd3Cascade s (some c.attrs) _ P.cols n he hnd]
      rfl
    exact ⟨hval, fun hne => hval ▸ Ne.symm hne⟩

/-- C5: the merged snapshot's value of a column declared SCD type 1 (the
`current_<n>` column) equals the source batch's value for every key present in
the source batch, and is the unchanged prior target value for every other
key. -/
theorem scd1_overwrite (P : Policy) (t : Nat) (S : List SrcRow) (T M : List Row) (n : String)
    (hok : scd_merge S T P t = .ok M) (he : (n, SCDType.scd1) ∈ P.cols) :
    (∀ s ∈ S, ∃ u, findCurrent M s.key = some u ∧
      getAttr u.attrs (.currentOf n) = srcVal s n) ∧
    (∀ k, k ∉ S.map (fun s => s.key) →
      (findCurrent M k).map (fun u => getAttr u.attrs (.currentOf n)) =
      (findCurrent T k).map (fun u => getAttr u.attrs (.currentOf n))) := by
  have hnd : (outColsL P.cols).Nodup := by
    rw [← hasDupB_eq_false_iff]
    exact (scd_merge_ok_elim S T P t M hok).2.1
  constructor
  · intro s hs
    match hc : findCurrent T s.key with
    | none =>
      obtain ⟨sk, hfind⟩ := merge_new_current P t S T M s hok hs hc
      refine ⟨_, hfind, ?_⟩
      show getAttr (buildAttrs P s none true) (.currentOf n) = srcVal s n
      unfold buildAttrs
      exact getAttr_build_scd1 P.scd3Cascade s none true P.cols n he hnd
    | some c =>
      rcases merge_matched_current P t S T M s c hok hs hc with ⟨hu, hfind⟩ | ⟨-, sk, hfind⟩
      · refine ⟨c, hfind, ?_⟩
        have := rowUnchanged_entry P s c (n, .scd1) he hu
        unfold entryUnchanged at this
        exact (of_decide_eq_true this).symm
      · refine ⟨_, hfind, ?_⟩
        rw [getAttr_passRow_updRow P t s c.attrs _ sk (.currentOf n)
          (fun m h => absurd h (by simp))]
        unfold buildAttrs
        exact getAttr_build_scd1 P.scd3Cascade s (some c.attrs) _ P.cols n he hnd
  · intro k hk
    have := merge_untouched_key P t S T M k hok hk
    unfold findCurrent
    rw [this]

/-- C7: for every CHANGED durable key under a type-3 policy, the merged
current row's primary column is overwritten with the new source value, and the
alternate column receives the previous current value of the primary only when
the alternate is currently null (freeze-after-first) — a non-null alternate is
left unchanged — while the cascading alternative (always capturing the
previous primary) is selected by the orchestrator parameter `scd3Cascade`. -/
theorem scd3_freeze_after_first (P : Policy) (t : Nat) (S : List SrcRow) (T M : List Row)
    (s : SrcRow) (c : Row) (n alt : String)
    (hok : scd_merge S T P t = .ok M) (hs : s ∈ S)
    (he : (n, SCDType.scd3 alt) ∈ P.cols)
    (hc : findCurrent T s.key = some c)
    (hch : rowUnchanged P s c = false)
    (hgen : c.effFrom ≠ t) :
    ∃ u, findCurrent M s.key = some u ∧
      getAttr u.attrs (.src n) = srcVal s n ∧
      getAttr u.attrs (.src alt) =
        (if P.scd3Cascade then getAttr c.attrs (.src n)
         else if getAttr c.attrs (.src alt) = none then getAttr c.attrs (.src n)
         else getAttr c.attrs (.src alt)) := by
  have hnd : (outColsL P.cols).Nodup := by
    rw [← hasDupB_eq_false_iff]
    exact (scd_merge_ok_elim S T P t M hok).2.1
  rcases merge_matched_current P t S T M s c hok hs hc with ⟨hu, -⟩ | ⟨-, sk, hfind⟩
  · rw [hu] at hch
    exact absurd hch (by simp)
  · rw [decide_eq_true_iff.mpr hgen] at hfind
    refine ⟨_, hfind, ?_, ?_⟩
    · rw [getAttr_passRow_updRow P t s c.attrs true sk (.src n)
        (fun m h => absurd h (by simp))]
      unfold buildAttrs
      exact getAttr_build_scd3_primary P.scd3Cascade s (some c.attrs) true P.cols n alt he hnd
    · rw [getAttr_passRow_updRow P t s c.attrs true sk (.src alt)
        (fun m h => absurd h (by simp))]
      unfold buildAttrs
      rw [getAttr_build_scd3_alt P.scd3Cascade s (some c.attrs) true P.cols n alt he hnd]
      unfold scd3Alt
      simp

/-! ### Chain and invariant lemmas -/

theorem chainedB_cons_cons (a b : Row) (rest : List Row) :
    chainedB (a :: b :: rest) = ((a.effTo == b.effFrom) && chainedB (b :: rest)) := rfl

theorem chainedB_append_one (l : List Row) (u : Row) :
    chainedB (l ++ [u]) = true ↔
      chainedB l = true ∧ (∀ x, l.getLast? = some x → x.effTo = u.effFrom) := by
  induction l with
  | nil => simp [chainedB]
  | cons a rest ih =>
    cases rest with
    | nil =>
      constructor
      · intro h
        refine ⟨rfl, ?_⟩
        intro x hx
        have hxa : a = x := by simpa using hx
        subst hxa
        have hb : (a.effTo == u.effFrom) = true := by
          rw [List.cons_append, List.nil_append, chainedB_cons_cons, Bool.and_eq_true] at h
          exact h.1
        simpa using hb
      · rintro ⟨-, h⟩
        have hval := h a (by simp)
        rw [List.cons_append, List.nil_append, chainedB_cons_cons, Bool.and_eq_true]
        exact ⟨by simpa using hval, rfl⟩
    | cons b rest' =>
      rw [List.cons_append, List.cons_append, chainedB_cons_cons, Bool.and_eq_true,
        ← List.cons_append, ih, chainedB_cons_cons, Bool.and_eq_true]
      constructor
      · rintro ⟨h1, h2, h3⟩
        exact ⟨⟨h1, h2⟩, by simpa using h3⟩
      · rintro ⟨⟨h1, h2⟩, h3⟩
        exact ⟨h1, h2, by simpa using h3⟩

theorem chainedB_map_meta (f : Row → Row) (l : List Row)
    (hf : ∀ r, (f r).effFrom = r.effFrom ∧ (f r).effTo = r.effTo) :
    chainedB (l.map f) = chainedB l := by
  induction l with
  | nil => rfl
  | cons a rest ih =>
    cases rest with
    | nil => rfl
    | cons b rest' =>
      rw [List.map_cons, List.map_cons, chainedB_cons_cons, chainedB_cons_cons,
        ← List.map_cons, ih, (hf a).2, (hf b).1]

theorem countP_map_pred {α : Type u} (p : α → Bool) (f : α → α) (l : List α)
    (hf : ∀ r, p (f r) = p r) : (l.map f).countP p = l.countP p := by
  induction l with
  | nil => rfl
  | cons a rest ih =>
    rw [List.map_cons, List.countP_cons, List.countP_cons, hf a, ih]

theorem rowsOk_map_meta (t : Nat) (f : Row → Row) (rows : List Row)
    (hf : ∀ r, (f r).effFrom = r.effFrom ∧ (f r).effTo = r.effTo ∧ (f r).isCur = r.isCur) :
    rowsOk t rows → rowsOk t (rows.map f) := by
  rintro ⟨h1, h2, h3, h4⟩
  refine ⟨?_, ?_, ?_, ?_⟩
  · rw [chainedB_map_meta f rows (fun r => ⟨(hf r).1, (hf r).2.1⟩)]
    exact h1
  · rw [countP_map_pred _ f rows (fun r => (hf r).2.2)]
    simpa using h2
  · intro r hr
    rw [List.mem_map] at hr
    obtain ⟨r₀, hr₀, hrr⟩ := hr
    obtain ⟨g1, g2, g3⟩ := h3 r₀ hr₀
    rw [← hrr, (hf r₀).1, (hf r₀).2.1, (hf r₀).2.2]
    exact ⟨g1, g2, g3⟩
  · rw [List.getLast?_map]
    cases hl : rows.getLast? with
    | none => rfl
    | some z =>
      rw [hl] at h4
      simp at h4 ⊢
      rw [(hf z).2.2]
      exact h4

theorem rowsOk_nil (t : Nat) : rowsOk t [] := by
  refine ⟨rfl, rfl, ?_, rfl⟩
  intro r hr
  simp at hr

theorem keyRows_eq_nil (snap : List Row) (k : Nat) (h : k ∉ snap.map (fun r => r.key)) :
    keyRows snap k = [] := by
  unfold keyRows
  rw [List.filter_eq_nil_iff]
  intro r hr hbeq
  exact h (by
    have : r.key = k := by simpa using hbeq
    exact this ▸ List.mem_map_of_mem (fun r => r.key) hr)

theorem snapOk_rowsOk (t : Nat) (snap : List Row) (h : snapOk t snap) (k : Nat) :
    rowsOk t (keyRows snap k) := by
  by_cases hk : k ∈ snap.map (fun r => r.key)
  · exact h k hk
  · rw [keyRows_eq_nil snap k hk]
    exact rowsOk_nil t

theorem rowsOk_last_isCur (t : Nat) (rows : List Row) (z : Row) (h : rowsOk t rows)
    (hz : rows.getLast? = some z) : z.isCur = true := by
  have h4 := h.2.2.2
  rw [hz] at h4
  simpa using h4

theorem rowsOk_decomp (t : Nat) (rows : List Row) (c : Row) (h : rowsOk t rows)
    (hf : rows.find? (fun r => r.isCur) = some c) :
    rows = rows.dropLast ++ [c] ∧ (∀ r ∈ rows.dropLast, r.isCur = false) ∧ c.isCur = true := by
  have hcmem : c ∈ rows := List.mem_of_find?_eq_some hf
  have hccur : c.isCur = true := by simpa using List.find?_some hf
  have hne : rows ≠ [] := List.ne_nil_of_mem hcmem
  have hlast : rows.getLast? = some (rows.getLast hne) := List.getLast?_eq_getLast rows hne
  have hzcur : (rows.getLast hne).isCur = true := rowsOk_last_isCur t rows _ h hlast
  have hdecomp : rows.dropLast ++ [rows.getLast hne] = rows :=
    List.dropLast_concat_getLast hne
  have hcount : rows.countP (fun r => r.isCur) = 1 := by
    have h2 := h.2.1
    rw [if_neg (by simpa using hne)] at h2
    exact h2
  have hdrop : ∀ r ∈ rows.dropLast, r.isCur = false := by
    have : (rows.dropLast ++ [rows.getLast hne]).countP (fun r => r.isCur) = 1 := by
      rw [hdecomp]; exact hcount
    rw [List.countP_append] at this
    have hone : List.countP (fun r => r.isCur) [rows.getLast hne] = 1 := by
      simp [List.countP_cons, hzcur]
    rw [hone] at this
    have hzero : rows.dropLast.countP (fun r => r.isCur) = 0 := by omega
    intro r hr
    have := List.countP_eq_zero.mp hzero r hr
    simpa using this
  have hceq : c = rows.getLast hne := by
    have : c ∈ rows.dropLast ++ [rows.getLast hne] := by rw [hdecomp]; exact hcmem
    rcases List.mem_append.mp this with hmem | hmem
    · rw [hdrop c hmem] at hccur
      exact absurd hccur (by simp)
    · simpa using hmem
  exact ⟨by rw [← hceq] at hdecomp; exact hdecomp.symm, hdrop, hccur⟩

theorem chainedB_replace_last (init : List Row) (c c' : Row)
    (h : chainedB (init ++ [c]) = true) (hfrom : c'.effFrom = c.effFrom) :
    chainedB (init ++ [c']) = true := by
  rw [chainedB_append_one] at h ⊢
  exact ⟨h.1, fun x hx => by rw [hfrom]; exact h.2 x hx⟩

theorem rowsOk_build (t : Nat) (init : List Row) (u : Row)
    (hch : chainedB (init ++ [u]) = true)
    (hdrop : ∀ r ∈ init, r.isCur = false)
    (hmem : ∀ r ∈ init, r.effFrom < r.effTo ∧ r.effFrom ≤ t ∧ (r.isCur = true → r.effTo = sentinel))
    (hu1 : u.effFrom < u.effTo) (hu2 : u.effFrom ≤ t) (hu3 : u.isCur = true)
    (hu4 : u.effTo = sentinel) :
    rowsOk t (init ++ [u]) := by
  refine ⟨hch, ?_, ?_, ?_⟩
  · rw [List.countP_append]
    have h0 : init.countP (fun r => r.isCur) = 0 :=
      List.countP_eq_zero.mpr (fun r hr => by simp [hdrop r hr])
    have h1 : List.countP (fun r => r.isCur) [u] = 1 := by
      simp [List.countP_cons, hu3]
    have hne : (init ++ [u]).isEmpty = false := by
      cases init <;> rfl
    rw [h0, h1, hne]
    rfl
  · intro r hr
    rcases List.mem_append.mp hr with hr | hr
    · exact hmem r hr
    · have : r = u := by simpa using hr
      subst this
      exact ⟨hu1, hu2, fun _ => hu4⟩
  · rw [List.getLast?_concat]
    simpa using hu3

theorem mergeKey_snapOk (P : Policy) (t : Nat) (snap : List Row) (s : SrcRow)
    (hts : t < sentinel) (hall : ∀ k, rowsOk t (keyRows snap k)) :
    ∀ k, rowsOk t (keyRows (mergeKey P t snap s) k) := by
  intro k
  by_cases hk : s.key = k
  swap
  · rw [mergeKey_keyRows_ne P t snap s k hk]
    exact hall k
  subst hk
  match hfc : findCurrent snap s.key with
  | none =>
    have hrows0 : keyRows snap s.key = [] := by
      have hnone : ∀ r ∈ keyRows snap s.key, r.isCur = false := by
        intro r hr
        have := List.find?_eq_none.mp hfc r hr
        simpa using this
      have hzero : (keyRows snap s.key).countP (fun r => r.isCur) = 0 :=
        List.countP_eq_zero.mpr (fun r hr => by simp [hnone r hr])
      by_cases hemp : (keyRows snap s.key).isEmpty = true
      · simpa using hemp
      · exfalso
        have h2 := (hall s.key).2.1
        rw [hzero, if_neg hemp] at h2
        exact absurd h2.symm (by simp)
    rw [mergeKey_new P t snap s hfc, keyRows_append, hrows0, keyRows_singleton]
    have : ((newRow P t s (freshSk snap)).key == s.key) = true := by simp [newRow]
    rw [this, if_pos rfl, List.nil_append]
    have hbuild := rowsOk_build t [] (newRow P t s (freshSk snap)) rfl
      (by intro r hr; simp at hr) (by intro r hr; simp at hr)
      (by show t < sentinel; exact hts) (by show t ≤ t; exact Nat.le_refl t) rfl rfl
    simpa using hbuild
  | some c =>
    by_cases hu : rowUnchanged P s c
    · rw [mergeKey_unchanged P t snap s c hfc hu]
      exact hall s.key
    · obtain ⟨hdec, hdropcur, hccur⟩ := rowsOk_decomp t (keyRows snap s.key) c (hall s.key) hfc
      have hckey : c.key = s.key := keyRows_key snap s.key c (List.mem_of_find?_eq_some hfc)
      obtain ⟨hclt, hcle, hcsent⟩ := (hall s.key).2.2.1 c (List.mem_of_find?_eq_some hfc)
      have hmeminit : ∀ r ∈ (keyRows snap s.key).dropLast,
          r.effFrom < r.effTo ∧ r.effFrom ≤ t ∧ (r.isCur = true → r.effTo = sentinel) := by
        intro r hr
        refine (hall s.key).2.2.1 r ?_
        rw [hdec]
        exact List.mem_append.mpr (Or.inl hr)
      have hpassmeta : ∀ r : Row, (passRow P s s.key r).effFrom = r.effFrom ∧
          (passRow P s s.key r).effTo = r.effTo ∧ (passRow P s s.key r).isCur = r.isCur :=
        fun r => ⟨(passRow_meta P s s.key r).2.2.1, (passRow_meta P s s.key r).2.2.2.1,
          (passRow_meta P s s.key r).2.2.2.2⟩
      have hch0 : chainedB (keyRows snap s.key) = true := (hall s.key).1
      by_cases hft : c.effFrom = t
      · rw [mergeKey_tie P t snap s c hfc (Bool.eq_false_iff.mpr hu) hft]
        unfold secondPass
        rw [keyRows_map _ _ _ (passRow_key P s s.key),
          keyRows_map _ _ _ (fun r => replaceCur_key s.key _ r rfl)]
        apply rowsOk_map_meta t _ _ hpassmeta
        have hmapsplit : (keyRows snap s.key).map
            (replaceCur s.key (updRow P t s c.attrs false c.sk)) =
            (keyRows snap s.key).dropLast ++ [updRow P t s c.attrs false c.sk] := by
          conv => lhs; rw [hdec]
          rw [List.map_append]
          have h1 : (keyRows snap s.key).dropLast.map
              (replaceCur s.key (updRow P t s c.attrs false c.sk)) =
              (keyRows snap s.key).dropLast := by
            apply map_id_on
            intro r hr
            unfold replaceCur
            simp [hdropcur r hr]
          have h2 : replaceCur s.key (updRow P t s c.attrs false c.sk) c =
              updRow P t s c.attrs false c.sk := by
            unfold replaceCur
            simp [hckey, hccur]
          rw [h1, List.map_cons, h2]
          rfl
        rw [hmapsplit]
        apply rowsOk_build t _ _ ?_ hdropcur hmeminit
        · show t < sentinel
          exact hts
        · show t ≤ t
          exact Nat.le_refl t
        · rfl
        · rfl
        · refine chainedB_replace_last _ c _ ?_ ?_
          · rw [← hdec]
            exact hch0
          · show t = c.effFrom
            exact hft.symm
      · rw [mergeKey_close P t snap s c hfc (Bool.eq_false_iff.mpr hu) hft]
        unfold secondPass
        rw [keyRows_map _ _ _ (passRow_key P s s.key), keyRows_append,
          keyRows_map _ _ _ (closeRow_key s.key t), keyRows_singleton]
        have hukey : ((updRow P t s c.attrs true (freshSk snap)).key == s.key) = true := by
          simp [updRow]
        rw [hukey, if_pos rfl]
        apply rowsOk_map_meta t _ _ hpassmeta
        have hmapsplit : (keyRows snap s.key).map (closeRow s.key t) =
            (keyRows snap s.key).dropLast ++ [{ c with effTo := t, isCur := false }] := by
          conv => lhs; rw [hdec]
          rw [List.map_append]
          have h1 : (keyRows snap s.key).dropLast.map (closeRow s.key t) =
              (keyRows snap s.key).dropLast := by
            apply map_id_on
            intro r hr
            unfold closeRow
            simp [hdropcur r hr]
          have h2 : closeRow s.key t c = { c with effTo := t, isCur := false } := by
            unfold closeRow
            simp [hckey, hccur]
          rw [h1, List.map_cons, h2]
          rfl
        rw [hmapsplit, List.append_assoc]
        have hclose_mem : ∀ r ∈ [{ c with effTo := t, isCur := false }],
            r.effFrom < r.effTo ∧ r.effFrom ≤ t ∧ (r.isCur = true → r.effTo = sentinel) := by
          intro r hr
          have : r = { c with effTo := t, isCur := false } := by simpa using hr
      
          subst this
          refine ⟨Nat.lt_of_le_of_ne hcle hft, hcle, ?_⟩
          intro habs
          exact absurd habs (by simp)
        have hdrop2 : ∀ r ∈ (keyRows snap s.key).dropLast ++ [{ c with effTo := t, isCur := false }],
            r.isCur = false := by
          intro r hr
          rcases List.mem_append.mp hr with hr | hr
          · exact hdropcur r hr
          · have : r = { c with effTo := t, isCur := false } := by simpa using hr
            subst this
            rfl
        have hmem2 : ∀ r ∈ (keyRows snap s.key).dropLast ++ [{ c with effTo := t, isCur := false }],
            r.effFrom < r.effTo ∧ r.effFrom ≤ t ∧ (r.isCur = true → r.effTo = sentinel) := by
          intro r hr
          rcases List.mem_append.mp hr with hr | hr
          · exact hmeminit r hr
          · exact hclose_mem r hr
        rw [← List.append_assoc]
        apply rowsOk_build t _ _ ?_ hdrop2 hmem2
        · show t < sentinel
          exact hts
        · show t ≤ t
          exact Nat.le_refl t
        · rfl
        · rfl
        · rw [chainedB_append_one]
          constructor
          · refine chainedB_replace_last _ c _ ?_ rfl
            rw [← hdec]
            exact hch0
          · intro x hx
            rw [List.getLast?_concat] at hx
            have : x = { c with effTo := t, isCur := false } := by simpa using hx.symm
            subst this
            rfl

theorem scd_merge_snapOk (S : List SrcRow) (T : List Row) (P : Policy) (t : Nat) (M : List Row)
    (hok : scd_merge S T P t = .ok M) (hT : snapOk t T) (hts : t < sentinel) :
    ∀ k, rowsOk t (keyRows M k) := by
  obtain ⟨-, -, -, hM⟩ := scd_merge_ok_elim S T P t M hok
  rw [hM]
  clear hM hok
  induction S generalizing T with
  | nil => exact snapOk_rowsOk t T hT
  | cons s rest ih =>
    rw [List.foldl_cons]
    have hstep := mergeKey_snapOk P t T s hts (snapOk_rowsOk t T hT)
    have hsnap : snapOk t (mergeKey P t T s) := fun k _ => hstep k
    exact ih (mergeKey P t T s) hsnap

/-- C2: in every snapshot returned by `scd_merge` from a well-formed target,
every durable key with two or more historical rows has contiguous,
non-overlapping effective intervals with no gaps (consecutive rows chain and
each interval is nonempty), exactly one row with the current flag set, and
that row's `effective_to` equal to the max sentinel. -/
theorem scd2_interval_coverage (S : List SrcRow) (T : List Row) (P : Policy) (t : Nat)
    (M : List Row) (hok : scd_merge S T P t = .ok M) (hT : snapOk t T) (hts : t < sentinel) :
    ∀ k, 2 ≤ (keyRows M k).length →
      chainedB (keyRows M k) = true ∧
      (∀ r ∈ keyRows M k, r.effFrom < r.effTo) ∧
      (keyRows M k).countP (fun r => r.isCur) = 1 ∧
      (∀ r ∈ keyRows M k, r.isCur = true → r.effTo = sentinel) := by
  intro k hlen
  have h := scd_merge_snapOk S T P t M hok hT hts k
  refine ⟨h.1, fun r hr => (h.2.2.1 r hr).1, ?_, fun r hr => (h.2.2.1 r hr).2.2⟩
  have hemp : (keyRows M k).isEmpty = false := by
    match hkr : keyRows M k with
    | [] => rw [hkr] at hlen; simp at hlen
    | r :: rest => rfl
  have h2 := h.2.1
  rw [hemp] at h2
  simpa using h2

/-- Witness for C2 at the spec §8 example shape: source customer 1 with score
730, target one current row with score 630, type-2 policy, timestamp 5. -/
theorem scd2_interval_coverage_witness :
    chainedB (keyRows exM 1) = true ∧
    (∀ r ∈ keyRows exM 1, r.effFrom < r.effTo) ∧
    (keyRows exM 1).countP (fun r => r.isCur) = 1 ∧
    (∀ r ∈ keyRows exM 1, r.isCur = true → r.effTo = sentinel) :=
  scd2_interval_coverage exS exT exP2 5 exM (by rfl) (by decide) (by decide) 1 (by decide)

/-! ### Claim theorems: stub behaviour, key cardinality, extension mechanism -/

/-- C1 (code bug): the claim says `scd_merge(df_source, df_target,
table_params)` completes as an ordinary call and returns a merged snapshot,
and the function's own docstring examples show it returning a dataframe; but
the body of the stub in src/scd_merge.py is `return df_merged` with
`df_merged` bound nowhere, so every call — for every source, target and
parameter values — raises `NameError: name 'df_merged' is not defined`. -/
theorem scd_merge_stub_raises (α : Type u) (df_source df_target table_params : α) :
    scd_merge_stub df_source df_target table_params =
      .error (.nameError "df_merged") := rfl

/-- C6: the merge raises `DuplicateSourceKey` exactly when the source batch
has more than one row for some durable key; a batch with at most one row per
durable key never triggers this error. -/
theorem duplicate_source_key_iff (S : List SrcRow) (T : List Row) (P : Policy) (t : Nat) :
    scd_merge S T P t = .error .DuplicateSourceKey ↔ ¬ (S.map (fun s => s.key)).Nodup := by
  unfold scd_merge
  by_cases h1 : hasDupB (S.map (fun s => s.key))
  · rw [if_pos h1]
    constructor
    · intro _
      rw [← hasDupB_eq_false_iff]
      simp [h1]
    · intro _
      rfl
  · rw [if_neg h1]
    constructor
    · intro h
      exfalso
      by_cases h2 : hasDupB (outCols P)
      · rw [if_pos h2] at h
        simp at h
      · rw [if_neg h2] at h
        by_cases h3 : hasDupB ((T.filter (fun r => r.isCur)).map (fun r => r.key))
        · rw [if_pos h3] at h
          simp at h
        · rw [if_neg h3] at h
          simp at h
    · intro h
      exfalso
      apply h
      rw [← hasDupB_eq_false_iff]
      simpa using h1

/-- C9: `add_attr(cls)(func)` returns `func` itself unchanged, and afterwards
the attribute of `cls` named `func.__name__` is a wrapper that returns, on any
arguments, exactly the value `func` returns on those arguments. -/
theorem add_attr_transparent {α : Type u} {β : Type v} (cls : List (String × (α → β)))
    (func : PyFunc α β) :
    (add_attr cls func).1 = func ∧
    ∃ w, lookupA func.name (add_attr cls func).2 = some w ∧ ∀ a, w a = func.impl a := by
  refine ⟨rfl, fun args => func.impl args, ?_, fun a => rfl⟩
  exact lookupA_setA_self func.name _ cls

/-- C10: importing src/add_attributes.py raises `NameError` in every
environment where pyspark is importable: the imports and definitions succeed,
the statement `DataFrame.custom = property(custom)` resolves, and then the
module-level statement `df.custom.add_column3()` evaluates the unbound name
`df`. -/
theorem add_attributes_import_raises (avail : List String)
    (h : "pyspark.sql.dataframe" ∈ avail) :
    runAddAttributes avail = .error (.nameError "df") := by
  have h1 : "pyspark.sql.dataframe" ∈ stdModules ++ avail := List.mem_append.mpr (Or.inr h)
  have h2 : "functools" ∈ stdModules ++ avail := List.mem_append.mpr (Or.inl (by decide))
  unfold runAddAttributes addAttributesStmts
  rw [runStmts, if_pos h1, runStmts, if_pos h2]
  rfl

/-- Witness for C10: a concrete environment whose importable modules are
exactly pyspark's dataframe module. -/
theorem add_attributes_import_raises_witness :
    "pyspark.sql.dataframe" ∈ ["pyspark.sql.dataframe"] ∧
    runAddAttributes ["pyspark.sql.dataframe"] = .error (.nameError "df") :=
  ⟨by decide, add_attributes_import_raises ["pyspark.sql.dataframe"] (by decide)⟩

/-- Witness for C4: source score 730 against an original of 630 — the output
`original_credit_score` keeps 630 and differs from 730. -/
theorem scd0_immutable_witness :
    ∃ u, findCurrent exM0 1 = some u ∧
      getAttr u.attrs (.original "credit_score") = getAttr exR0.attrs (.original "credit_score") ∧
      (srcVal exSrow "credit_score" ≠ getAttr exR0.attrs (.original "credit_score") →
        getAttr u.attrs (.original "credit_score") ≠ srcVal exSrow "credit_score") :=
  scd0_immutable_on_matched_keys exP0 5 exS exT0 exM0 exSrow exR0 "credit_score"
    (by rfl) (by decide) (by decide) (by rfl)

/-- Witness for C5: source score 730 overwrites `current_credit_score`. -/
theorem scd1_overwrite_witness :
    ∃ u, findCurrent exM1 1 = some u ∧
      getAttr u.attrs (.currentOf "credit_score") = srcVal exSrow "credit_score" :=
  (scd1_overwrite exP1 5 exS exT1 exM1 "credit_score" (by rfl) (by decide)).1
    exSrow (by decide)

/-- Witness for C7: a first change with a null alternate captures the previous
primary value 630 while the primary becomes 730. -/
theorem scd3_freeze_after_first_witness :
    ∃ u, findCurrent exM3 1 = some u ∧
      getAttr u.attrs (.src "credit_score") = srcVal exSrow "credit_score" ∧
      getAttr u.attrs (.src "credit_score_alternate") =
        (if exP3.scd3Cascade then getAttr exR3.attrs (.src "credit_score")
         else if getAttr exR3.attrs (.src "credit_score_alternate") = none then
           getAttr exR3.attrs (.src "credit_score")
         else getAttr exR3.attrs (.src "credit_score_alternate")) :=
  scd3_freeze_after_first exP3 5 exS exT3 exM3 exSrow exR3 "credit_score"
    "credit_score_alternate" (by rfl) (by decide) (by decide) (by rfl) (by rfl) (by decide)

/-! ### Type-6 shadow invariant preservation -/

theorem rowsOk_findCurrent_none (t : Nat) (rows : List Row) (h : rowsOk t rows)
    (hf : rows.find? (fun r => r.isCur) = none) : rows = [] := by
  have hnone : ∀ r ∈ rows, r.isCur = false := by
    intro r hr
    have := List.find?_eq_none.mp hf r hr
    simpa using this
  have hzero : rows.countP (fun r => r.isCur) = 0 :=
    List.countP_eq_zero.mpr (fun r hr => by simp [hnone r hr])
  by_cases hemp : rows.isEmpty = true
  · simpa using hemp
  · exfalso
    have h2 := h.2.1
    rw [hzero, if_neg hemp] at h2
    exact absurd h2.symm (by simp)

theorem shadowOk_elim (n : String) (snap : List Row) (h : shadowOk n snap) (k : Nat) (c : Row)
    (hc : findCurrent snap k = some c) (r : Row) (hr : r ∈ keyRows snap k) :
    getAttr r.attrs (.shadowCur n) = getAttr c.attrs (.shadowCur n) := by
  have hkmem : k ∈ snap.map (fun r => r.key) := by
    have hcmem : c ∈ keyRows snap k := List.mem_of_find?_eq_some hc
    have := keyRows_key snap k c hcmem
    exact this ▸ List.mem_map_of_mem (fun r => r.key) (mem_of_mem_keyRows snap k c hcmem)
  exact h k hkmem c (by simp [hc]) r hr

theorem getAttr_passRow_shadowCur (P : Policy) (s : SrcRow) (n : String)
    (he : (n, SCDType.scd6) ∈ P.cols) (r : Row) (hr : r.key = s.key) :
    getAttr (passRow P s s.key r).attrs (.shadowCur n) = srcVal s n := by
  rw [passRow_attrs_self P s r hr]
  rw [scd6PassL_getAttr_cur]
  simp [he]

theorem mergeKey_shadowOk (P : Policy) (t : Nat) (snap : List Row) (s : SrcRow) (n : String)
    (he : (n, SCDType.scd6) ∈ P.cols)
    (hall : ∀ k, rowsOk t (keyRows snap k))
    (hsh : ∀ k c, findCurrent snap k = some c → ∀ r ∈ keyRows snap k,
      getAttr r.attrs (.shadowCur n) = getAttr c.attrs (.shadowCur n)) :
    ∀ k c, findCurrent (mergeKey P t snap s) k = some c →
      ∀ r ∈ keyRows (mergeKey P t snap s) k,
        getAttr r.attrs (.shadowCur n) = getAttr c.attrs (.shadowCur n) := by
  intro k c' hc' r hr
  by_cases hk : s.key = k
  swap
  · have hkr := mergeKey_keyRows_ne P t snap s k hk
    rw [hkr] at hr
    have hfc' : findCurrent snap k = some c' := by
      unfold findCurrent at hc' ⊢
      rw [hkr] at hc'
      exact hc'
    exact hsh k c' hfc' r hr
  subst hk
  match hfc : findCurrent snap s.key with
  | none =>
    have hrows0 : keyRows snap s.key = [] := rowsOk_findCurrent_none t _ (hall s.key) hfc
    rw [mergeKey_findCurrent_new P t snap s hfc] at hc'
    rw [mergeKey_new P t snap s hfc, keyRows_append, hrows0, keyRows_singleton] at hr
    have hbeq : ((newRow P t s (freshSk snap)).key == s.key) = true := by simp [newRow]
    rw [hbeq, if_pos rfl, List.nil_append] at hr
    have hreq : r = newRow P t s (freshSk snap) := by simpa using hr
    have hceq : c' = newRow P t s (freshSk snap) := by
      have := hc'
      simp at this
      exact this.symm
    rw [hreq, hceq]
  | some c =>
    by_cases hu : rowUnchanged P s c
    · rw [mergeKey_unchanged P t snap s c hfc hu] at hc' hr
      exact hsh s.key c' hc' r hr
    · have hcurval : getAttr c'.attrs (.shadowCur n) = srcVal s n := by
        by_cases hft : c.effFrom = t
        · rw [mergeKey_findCurrent_tie P t snap s c hfc (Bool.eq_false_iff.mpr hu) hft] at hc'
          have : c' = passRow P s s.key (updRow P t s c.attrs false c.sk) := by
            simpa using hc'.symm
          rw [this]
          exact getAttr_passRow_shadowCur P s n he _ rfl
        · rw [mergeKey_findCurrent_close P t snap s c hfc (Bool.eq_false_iff.mpr hu) hft] at hc'
          have : c' = passRow P s s.key (updRow P t s c.attrs true (freshSk snap)) := by
            simpa using hc'.symm
          rw [this]
          exact getAttr_passRow_shadowCur P s n he _ rfl
      have hrowval : getAttr r.attrs (.shadowCur n) = srcVal s n := by
        by_cases hft : c.effFrom = t
        · rw [mergeKey_tie P t snap s c hfc (Bool.eq_false_iff.mpr hu) hft] at hr
          unfold secondPass at hr
          rw [keyRows_map _ _ _ (passRow_key P s s.key)] at hr
          rw [List.mem_map] at hr
          obtain ⟨r₀, hr₀, hrr⟩ := hr
          have hr₀key : r₀.key = s.key := by
            have := keyRows_key _ _ r₀ hr₀
            rw [keyRows_map _ _ _ (fun x => replaceCur_key s.key _ x rfl)] at hr₀
            exact this
          rw [← hrr]
          exact getAttr_passRow_shadowCur P s n he r₀ hr₀key
        · rw [mergeKey_close P t snap s c hfc (Bool.eq_false_iff.mpr hu) hft] at hr
          unfold secondPass at hr
          rw [keyRows_map _ _ _ (passRow_key P s s.key)] at hr
          rw [List.mem_map] at hr
          obtain ⟨r₀, hr₀, hrr⟩ := hr
          have hr₀key : r₀.key = s.key := keyRows_key _ _ r₀ hr₀
          rw [← hrr]
          exact getAttr_passRow_shadowCur P s n he r₀ hr₀key
      rw [hcurval, hrowval]

theorem getAttr_passRow_shadowHist (P : Policy) (s : SrcRow) (k : Nat) (r : Row) (n : String) :
    getAttr (passRow P s k r).attrs (.shadowHist n) = getAttr r.attrs (.shadowHist n) := by
  unfold passRow
  by_cases h : r.key == k
  · simp only [h, if_true]
    exact scd6PassL_getAttr_ne s P.cols r.attrs _ (fun m hm => by cases hm)
  · simp [h]

theorem mergeKey_hist_preserved (P : Policy) (t : Nat) (snap : List Row) (s : SrcRow)
    (hall : ∀ k, rowsOk t (keyRows snap k)) (k i : Nat) (r : Row)
    (hr : (keyRows snap k)[i]? = some r) (hcur : r.isCur = false) :
    ∃ r', (keyRows (mergeKey P t snap s) k)[i]? = some r' ∧ r'.isCur = false ∧
      ∀ n, getAttr r'.attrs (.shadowHist n) = getAttr r.attrs (.shadowHist n) := by
  have hlen : i < (keyRows snap k).length := by
    by_cases h : i < (keyRows snap k).length
    · exact h
    · rw [List.getElem?_eq_none (Nat.le_of_not_lt h)] at hr
      exact absurd hr (by simp)
  have hrkey : r.key = k := by
    obtain ⟨hb, hv⟩ := List.getElem?_eq_some_iff.mp hr
    exact keyRows_key snap k r (hv ▸ List.getElem_mem hb)
  by_cases hk : s.key = k
  swap
  · exact ⟨r, by rw [mergeKey_keyRows_ne P t snap s k hk]; exact hr, hcur, fun n => rfl⟩
  subst hk
  match hfc : findCurrent snap s.key with
  | none =>
    refine ⟨r, ?_, hcur, fun n => rfl⟩
    rw [mergeKey_new P t snap s hfc, keyRows_append]
    rw [List.getElem?_append_left hlen]
    exact hr
  | some c =>
    by_cases hu : rowUnchanged P s c
    · exact ⟨r, by rw [mergeKey_unchanged P t snap s c hfc hu]; exact hr, hcur, fun n => rfl⟩
    · by_cases hft : c.effFrom = t
      · rw [mergeKey_tie P t snap s c hfc (Bool.eq_false_iff.mpr hu) hft]
        unfold secondPass
        rw [keyRows_map _ _ _ (passRow_key P s s.key),
          keyRows_map _ _ _ (fun x => replaceCur_key s.key _ x rfl)]
        have hrep : replaceCur s.key (updRow P t s c.attrs false c.sk) r = r := by
          unfold replaceCur
          simp [hcur]
        refine ⟨passRow P s s.key r, ?_, ?_, ?_⟩
        · rw [List.getElem?_map, List.getElem?_map, hr]
          simp [hrep]
        · rw [(passRow_meta P s s.key r).2.2.2.2]
          exact hcur
        · intro n
          exact getAttr_passRow_shadowHist P s s.key r n
      · rw [mergeKey_close P t snap s c hfc (Bool.eq_false_iff.mpr hu) hft]
        unfold secondPass
        rw [keyRows_map _ _ _ (passRow_key P s s.key), keyRows_append,
          keyRows_map _ _ _ (closeRow_key s.key t), keyRows_singleton]
        have hukey : ((updRow P t s c.attrs true (freshSk snap)).key == s.key) = true := by
          simp [updRow]
        rw [hukey, if_pos rfl]
        have hcl : closeRow s.key t r = r := by
          unfold closeRow
          simp [hcur]
        refine ⟨passRow P s s.key r, ?_, ?_, ?_⟩
        · rw [List.map_append, List.getElem?_append_left (by simpa using hlen),
            List.getElem?_map, List.getElem?_map, hr]
          simp [hcl]
        · rw [(passRow_meta P s s.key r).2.2.2.2]
          exact hcur
        · intro n
          exact getAttr_passRow_shadowHist P s s.key r n

theorem scd_merge_shadow_fold (P : Policy) (t : Nat) (S : List SrcRow) (T : List Row)
    (n : String) (he : (n, SCDType.scd6) ∈ P.cols) (hts : t < sentinel)
    (hall : ∀ k, rowsOk t (keyRows T k))
    (hsh : ∀ k c, findCurrent T k = some c → ∀ r ∈ keyRows T k,
      getAttr r.attrs (.shadowCur n) = getAttr c.attrs (.shadowCur n)) :
    (∀ k c, findCurrent (S.foldl (mergeKey P t) T) k = some c →
      ∀ r ∈ keyRows (S.foldl (mergeKey P t) T) k,
        getAttr r.attrs (.shadowCur n) = getAttr c.attrs (.shadowCur n)) ∧
    (∀ (k i : Nat) (r : Row), (keyRows T k)[i]? = some r → r.isCur = false →
      ∃ r' : Row, (keyRows (S.foldl (mergeKey P t) T) k)[i]? = some r' ∧ r'.isCur = false ∧
        getAttr r'.attrs (.shadowHist n) = getAttr r.attrs (.shadowHist n)) := by
  induction S generalizing T with
  | nil => exact ⟨hsh, fun k i r hr hcur => ⟨r, hr, hcur, rfl⟩⟩
  | cons s rest ih =>
    rw [List.foldl_cons]
    have hall' := mergeKey_snapOk P t T s hts hall
    have hsh' := mergeKey_shadowOk P t T s n he hall hsh
    obtain ⟨g1, g2⟩ := ih (mergeKey P t T s) hall' hsh'
    refine ⟨g1, ?_⟩
    intro k i r hr hcur
    obtain ⟨r₁, hr₁, hcur₁, hhist₁⟩ := mergeKey_hist_preserved P t T s hall k i r hr hcur
    obtain ⟨r₂, hr₂, hcur₂, hhist₂⟩ := g2 k i r₁ hr₁ hcur₁
    exact ⟨r₂, hr₂, hcur₂, hhist₂.trans (hhist₁ n)⟩

/-- C8: in every snapshot returned by `scd_merge` from a well-formed target
satisfying the shadow invariant, every row of a durable key carries the same
type-6 `_current` shadow value as the key's single current row, while the
`_historical` column of every already-closed row is retained unchanged. -/
theorem scd6_shadow_consistency (S : List SrcRow) (T : List Row) (P : Policy) (t : Nat)
    (M : List Row) (n : String)
    (hok : scd_merge S T P t = .ok M) (he : (n, SCDType.scd6) ∈ P.cols)
    (hT : snapOk t T) (hsh : shadowOk n T) (hts : t < sentinel) :
    (∀ k c, findCurrent M k = some c → ∀ r ∈ keyRows M k,
      getAttr r.attrs (.shadowCur n) = getAttr c.attrs (.shadowCur n)) ∧
    (∀ (k i : Nat) (r : Row), (keyRows T k)[i]? = some r → r.isCur = false →
      ∃ r' : Row, (keyRows M k)[i]? = some r' ∧ r'.isCur = false ∧
        getAttr r'.attrs (.shadowHist n) = getAttr r.attrs (.shadowHist n)) := by
  obtain ⟨-, -, -, hM⟩ := scd_merge_ok_elim S T P t M hok
  rw [hM]
  exact scd_merge_shadow_fold P t S T n he hts (snapOk_rowsOk t T hT)
    (fun k c hc r hr => shadowOk_elim n T hsh k c hc r hr)

/-- Witness for C8: the three-row merged snapshot `exM6` — all rows share the
shadow value of the current row, and the closed row at index 0 keeps its
historical value 500. -/
theorem scd6_shadow_consistency_witness :
    (∀ r ∈ keyRows exM6 1, getAttr r.attrs (.shadowCur "credit_score") =
      getAttr exC6.attrs (.shadowCur "credit_score")) ∧
    (∃ r' : Row, (keyRows exM6 1)[0]? = some r' ∧ r'.isCur = false ∧
      getAttr r'.attrs (.shadowHist "credit_score") =
        getAttr exA6.attrs (.shadowHist "credit_score")) := by
  have h := scd6_shadow_consistency exS exT6 exP6 5 exM6 "credit_score"
    (by rfl) (by decide) (by decide) (by decide) (by decide)
  exact ⟨h.1 1 exC6 (by rfl), h.2 1 0 exA6 (by rfl) (by rfl)⟩

/-! ### Re-merge identity lemmas -/

theorem row_eq (r₁ r₂ : Row) (h1 : r₁.key = r₂.key) (h2 : r₁.sk = r₂.sk)
    (h3 : r₁.effFrom = r₂.effFrom) (h4 : r₁.effTo = r₂.effTo) (h5 : r₁.isCur = r₂.isCur)
    (h6 : r₁.attrs = r₂.attrs) : r₁ = r₂ := by
  cases r₁
  cases r₂
  cases h1
  cases h2
  cases h3
  cases h4
  cases h5
  cases h6
  rfl

theorem entryUnchanged_scd0 (s : SrcRow) (c : Row) (n : String) :
    entryUnchanged s c (n, SCDType.scd0) =
      decide (srcVal s n = getAttr c.attrs (.original n)) := rfl

theorem entryUnchanged_scd1 (s : SrcRow) (c : Row) (n : String) :
    entryUnchanged s c (n, SCDType.scd1) =
      decide (srcVal s n = getAttr c.attrs (.currentOf n)) := rfl

theorem entryUnchanged_scd2 (s : SrcRow) (c : Row) (n : String) :
    entryUnchanged s c (n, SCDType.scd2) =
      decide (srcVal s n = getAttr c.attrs (.src n)) := rfl

theorem entryUnchanged_scd3 (s : SrcRow) (c : Row) (n alt : String) :
    entryUnchanged s c (n, SCDType.scd3 alt) =
      decide (srcVal s n = getAttr c.attrs (.src n)) := rfl

theorem entryUnchanged_scd6 (s : SrcRow) (c : Row) (n : String) :
    entryUnchanged s c (n, SCDType.scd6) =
      decide (srcVal s n = getAttr c.attrs (.shadowCur n)) := rfl

theorem entryUnchanged_scd7 (s : SrcRow) (c : Row) (n : String) :
    entryUnchanged s c (n, SCDType.scd7) =
      decide (srcVal s n = getAttr c.attrs (.src n)) := rfl

theorem colOut_scd0 (casc : Bool) (s : SrcRow) (old : Option AttrMap) (fresh : Bool)
    (n : String) : colOut casc s old fresh (n, SCDType.scd0) =
      [(.original n, scd0Val s old n)] := rfl

theorem colOut_scd3 (casc : Bool) (s : SrcRow) (old : Option AttrMap) (fresh : Bool)
    (n alt : String) : colOut casc s old fresh (n, SCDType.scd3 alt) =
      [(.src n, srcVal s n), (.src alt, scd3Alt casc old fresh n alt)] := rfl

theorem rowUnchanged_newRow (P : Policy) (t : Nat) (s : SrcRow) (sk : Nat)
    (hnd : (outColsL P.cols).Nodup) : rowUnchanged P s (newRow P t s sk) = true := by
  unfold rowUnchanged
  rw [List.all_eq_true]
  intro e he
  obtain ⟨n, ty⟩ := e
  have hattrs : (newRow P t s sk).attrs = buildAttrsL P.scd3Cascade s none true P.cols := rfl
  cases ty with
  | scd0 =>
    rw [entryUnchanged_scd0, hattrs,
      getAttr_build_scd0 P.scd3Cascade s none true P.cols n he hnd]
    simp [scd0Val]
  | scd1 =>
    rw [entryUnchanged_scd1, hattrs,
      getAttr_build_scd1 P.scd3Cascade s none true P.cols n he hnd]
    simp
  | scd2 =>
    rw [entryUnchanged_scd2, hattrs,
      getAttr_build_scd2 P.scd3Cascade s none true P.cols n he hnd]
    simp
  | scd3 alt =>
    rw [entryUnchanged_scd3, hattrs,
      getAttr_build_scd3_primary P.scd3Cascade s none true P.cols n alt he hnd]
    simp
  | scd6 =>
    rw [entryUnchanged_scd6, hattrs,
      getAttr_build_scd6_cur P.scd3Cascade s none true P.cols n he hnd]
    simp
  | scd7 =>
    rw [entryUnchanged_scd7, hattrs,
      getAttr_build_scd7 P.scd3Cascade s none true P.cols n he hnd]
    simp

theorem rebuild_buildAttrs (casc : Bool) (s : SrcRow) (a : AttrMap) (f : Bool)
    (es : List (String × SCDType)) (hnd : (outColsL es).Nodup) :
    buildAttrsL casc s (some (scd6PassL s es (buildAttrsL casc s (some a) f es))) false es =
      buildAttrsL casc s (some a) f es := by
  apply buildAttrsL_congr
  intro e he
  obtain ⟨n, ty⟩ := e
  cases ty with
  | scd0 =>
    rw [colOut_scd0, colOut_scd0]
    have h0 : scd0Val s (some (scd6PassL s es (buildAttrsL casc s (some a) f es))) n =
        getAttr (scd6PassL s es (buildAttrsL casc s (some a) f es)) (.original n) := rfl
    rw [h0, scd6PassL_getAttr_ne s es _ _ (fun m hm => by cases hm),
      getAttr_build_scd0 casc s (some a) f es n he hnd]
  | scd1 => rfl
  | scd2 => rfl
  | scd3 alt =>
    rw [colOut_scd3, colOut_scd3]
    have h0 : scd3Alt casc (some (scd6PassL s es (buildAttrsL casc s (some a) f es)))
        false n alt =
        getAttr (scd6PassL s es (buildAttrsL casc s (some a) f es)) (.src alt) := rfl
    have h1 : getAttr (scd6PassL s es (buildAttrsL casc s (some a) f es)) (.src alt) =
        scd3Alt casc (some a) f n alt := by
      rw [scd6PassL_getAttr_ne s es _ _ (fun m hm => by cases hm)]
      exact getAttr_build_scd3_alt casc s (some a) f es n alt he hnd
    rw [h0, h1]
  | scd6 => rfl
  | scd7 => rfl

theorem passRow_attrs (P : Policy) (s : SrcRow) (r : Row) (hr : r.key = s.key) :
    (passRow P s s.key r).attrs = scd6PassL s P.cols r.attrs := by
  rw [passRow_attrs_self P s r hr]

theorem updRow_attrs (P : Policy) (t : Nat) (s : SrcRow) (old : AttrMap) (f : Bool) (sk : Nat) :
    (updRow P t s old f sk).attrs = buildAttrsL P.scd3Cascade s (some old) f P.cols := rfl

theorem updRow_key (P : Policy) (t : Nat) (s : SrcRow) (old : AttrMap) (f : Bool) (sk : Nat) :
    (updRow P t s old f sk).key = s.key := rfl

theorem passRow_updRow_fix (P : Policy) (t : Nat) (s : SrcRow) (a : AttrMap) (f : Bool)
    (sk : Nat) (hnd : (outColsL P.cols).Nodup) :
    passRow P s s.key (updRow P t s (passRow P s s.key (updRow P t s a f sk)).attrs false
      (passRow P s s.key (updRow P t s a f sk)).sk) =
      passRow P s s.key (updRow P t s a f sk) := by
  refine row_eq _ _ ?_ ?_ ?_ ?_ ?_ ?_
  · rw [passRow_key, passRow_key]
    rfl
  · rw [(passRow_meta P s s.key _).2.1, (passRow_meta P s s.key _).2.1]
    rfl
  · rw [(passRow_meta P s s.key _).2.2.1, (passRow_meta P s s.key _).2.2.1]
    rfl
  · rw [(passRow_meta P s s.key _).2.2.2.1, (passRow_meta P s s.key _).2.2.2.1]
    rfl
  · rw [(passRow_meta P s s.key _).2.2.2.2, (passRow_meta P s s.key _).2.2.2.2]
    rfl
  · rw [passRow_attrs P s _ rfl, passRow_attrs P s _ rfl]
    exact congrArg (scd6PassL s P.cols) (rebuild_buildAttrs P.scd3Cascade s a f P.cols hnd)

theorem passRow_idem (P : Policy) (s : SrcRow) (x : Row) (hx : x.key = s.key) :
    passRow P s s.key (passRow P s s.key x) = passRow P s s.key x := by
  have hx' : (passRow P s s.key x).key = s.key := by rw [passRow_key]; exact hx
  refine row_eq _ _ ?_ ?_ ?_ ?_ ?_ ?_
  · rw [passRow_key]
  · rw [(passRow_meta P s s.key _).2.1]
  · rw [(passRow_meta P s s.key _).2.2.1]
  · rw [(passRow_meta P s s.key _).2.2.2.1]
  · rw [(passRow_meta P s s.key _).2.2.2.2]
  · rw [passRow_attrs P s _ hx', passRow_attrs P s _ hx]
    exact scd6PassL_idem s P.cols x.attrs

theorem filter_map_pred {α : Type u} (p : α → Bool) (f : α → α) (l : List α)
    (hf : ∀ r, p (f r) = p r) : (l.map f).filter p = (l.filter p).map f := by
  induction l with
  | nil => rfl
  | cons a rest ih =>
    rw [List.map_cons, List.filter_cons, List.filter_cons, hf a]
    match hp : p a with
    | true => rw [if_pos rfl, if_pos rfl, List.map_cons, ih]
    | false => exact ih

theorem map_key_congr (f : Row → Row) (l : List Row) (hf : ∀ r, (f r).key = r.key) :
    (l.map f).map (fun r => r.key) = l.map (fun r => r.key) := by
  induction l with
  | nil => rfl
  | cons a rest ih =>
    rw [List.map_cons, List.map_cons, List.map_cons, hf a, ih]

theorem replaceCur_isCur (k : Nat) (u : Row) (hu : u.isCur = true) (r : Row) :
    (replaceCur k u r).isCur = r.isCur := by
  unfold replaceCur
  by_cases h : r.key == k && r.isCur
  · rw [if_pos h, hu]
    rw [Bool.and_eq_true] at h
    exact h.2.symm
  · rw [if_neg h]

theorem filter_isCur_closeRow (snap : List Row) (k t : Nat) :
    (snap.map (closeRow k t)).filter (fun r => r.isCur) =
      snap.filter (fun r => r.isCur && !(r.key == k)) := by
  induction snap with
  | nil => rfl
  | cons r rest ih =>
    rw [List.map_cons, List.filter_cons, List.filter_cons]
    by_cases hg : r.key == k && r.isCur
    · have hclosed : closeRow k t r = { r with effTo := t, isCur := false } := by
        unfold closeRow
        rw [if_pos hg]
      rw [Bool.and_eq_true] at hg
      rw [hclosed]
      simp only [hg.1, hg.2]
      simp only [Bool.not_true, Bool.and_false, if_false]
      exact ih
    · have hsame : closeRow k t r = r := by
        unfold closeRow
        rw [if_neg hg]
      rw [hsame]
      match hc : r.isCur with
      | false =>
        simp only [Bool.false_and, if_false]
        exact ih
      | true =>
        have hkey : (r.key == k) = false := by
          rw [Bool.and_eq_true] at hg
          push_neg at hg
          by_cases hb : r.key == k
          · exact absurd hc (hg hb)
          · simpa using hb
        simp only [hkey, Bool.not_false, Bool.and_true, if_pos]
        rw [ih]
  
theorem not_mem_curKeys_of_findCurrent_none (snap : List Row) (k : Nat)
    (hfc : findCurrent snap k = none) :
    k ∉ (snap.filter (fun r => r.isCur)).map (fun r => r.key) := by
  intro hmem
  rw [List.mem_map] at hmem
  obtain ⟨r, hr, hrk⟩ := hmem
  rw [List.mem_filter] at hr
  have hkr : r ∈ keyRows snap k := by
    rw [keyRows, List.mem_filter]
    exact ⟨hr.1, by simp [hrk]⟩
  have := List.find?_eq_none.mp hfc r hkr
  exact this hr.2

theorem mergeKey_curNodup (P : Policy) (t : Nat) (snap : List Row) (s : SrcRow)
    (h : ((snap.filter (fun r => r.isCur)).map (fun r => r.key)).Nodup) :
    (((mergeKey P t snap s).filter (fun r => r.isCur)).map (fun r => r.key)).Nodup := by
  match hfc : findCurrent snap s.key with
  | none =>
    rw [mergeKey_new P t snap s hfc, List.filter_append, List.map_append]
    have hnew : List.filter (fun r => r.isCur) [newRow P t s (freshSk snap)] =
        [newRow P t s (freshSk snap)] := by
      rw [List.filter_cons, if_pos (by simp [newRow_isCur])]
      rfl
    rw [hnew]
    rw [List.nodup_append]
    refine ⟨h, by simp, ?_⟩
    intro x hx hx'
    have : x = s.key := by
      have : (newRow P t s (freshSk snap)).key = s.key := rfl
      simpa [this] using hx'
    subst this
    exact not_mem_curKeys_of_findCurrent_none snap s.key hfc hx
  | some c =>
    by_cases hu : rowUnchanged P s c
    · rw [mergeKey_unchanged P t snap s c hfc hu]
      exact h
    · by_cases hft : c.effFrom = t
      · rw [mergeKey_tie P t snap s c hfc (Bool.eq_false_iff.mpr hu) hft]
        unfold secondPass
        rw [filter_map_pred _ _ _ (fun r => (passRow_meta P s s.key r).2.2.2.2),
          filter_map_pred _ _ _ (replaceCur_isCur s.key _ rfl),
          map_key_congr _ _ (passRow_key P s s.key),
          map_key_congr _ _ (fun r => replaceCur_key s.key _ r rfl)]
        exact h
      · rw [mergeKey_close P t snap s c hfc (Bool.eq_false_iff.mpr hu) hft]
        unfold secondPass
        rw [List.map_append, List.filter_append, List.map_append,
          filter_map_pred _ _ _ (fun r => (passRow_meta P s s.key r).2.2.2.2),
          map_key_congr _ _ (passRow_key P s s.key), filter_isCur_closeRow]
        have hsingle : List.filter (fun r => r.isCur)
            (List.map (passRow P s s.key) [updRow P t s c.attrs true (freshSk snap)]) =
            [passRow P s s.key (updRow P t s c.attrs true (freshSk snap))] := by
          rw [List.map_cons, List.filter_cons,
            if_pos (by simp [(passRow_meta P s s.key _).2.2.2.2, updRow_isCur])]
          rfl
        rw [hsingle]
        have hq : snap.filter (fun r => r.isCur && !(r.key == s.key)) =
            (snap.filter (fun r => r.isCur)).filter (fun r => !(r.key == s.key)) := by
          rw [List.filter_filter]
          exact List.filter_congr (fun r _ => Bool.and_comm _ _)
        rw [List.nodup_append]
        refine ⟨?_, by simp, ?_⟩
        · rw [hq]
          exact h.sublist (List.Sublist.map _ (List.filter_sublist _))
        · intro x hx hx'
          have hxk : x = s.key := by
            have hkey : (passRow P s s.key (updRow P t s c.attrs true (freshSk snap))).key =
                s.key := by
              rw [passRow_key]
              rfl
            simpa [List.map_cons, hkey] using hx'
          subst hxk
          rw [List.mem_map] at hx
          obtain ⟨r, hr, hrk⟩ := hx
          rw [List.mem_filter, Bool.and_eq_true] at hr
          have := hr.2.2
          rw [hrk] at this
          simp at this

theorem mergeKey_remerge_id (P : Policy) (t : Nat) (S : List SrcRow) (T : List Row)
    (s : SrcRow) (hs : s ∈ S) (hnd : (S.map SrcRow.key).Nodup)
    (hcols : (outColsL P.cols).Nodup) :
    mergeKey P t (S.foldl (mergeKey P t) T) s = S.foldl (mergeKey P t) T := by
  obtain ⟨snap, hkr, hfold⟩ := foldl_keyRows_track P t S T s hnd hs
  have hfcM : findCurrent (S.foldl (mergeKey P t) T) s.key =
      findCurrent (mergeKey P t snap s) s.key := by
    unfold findCurrent
    rw [hfold]
  match hfc : findCurrent snap s.key with
  | none =>
    have hnew : findCurrent (S.foldl (mergeKey P t) T) s.key =
        some (newRow P t s (freshSk snap)) := by
      rw [hfcM, mergeKey_findCurrent_new P t snap s hfc]
    exact mergeKey_unchanged P t _ s _ hnew (rowUnchanged_newRow P t s _ hcols)
  | some c =>
    by_cases hu : rowUnchanged P s c
    · have hsame : findCurrent (S.foldl (mergeKey P t) T) s.key = some c := by
        rw [hfcM, mergeKey_unchanged P t snap s c hfc hu]
        exact hfc
      exact mergeKey_unchanged P t _ s c hsame hu
    · by_cases hft : c.effFrom = t
      · -- first run took the same-timestamp tie-break branch
        have hcur : findCurrent (S.foldl (mergeKey P t) T) s.key =
            some (passRow P s s.key (updRow P t s c.attrs false c.sk)) := by
          rw [hfcM, mergeKey_findCurrent_tie P t snap s c hfc (Bool.eq_false_iff.mpr hu) hft]
        have hrows : keyRows (S.foldl (mergeKey P t) T) s.key =
            ((keyRows snap s.key).map
              (replaceCur s.key (updRow P t s c.attrs false c.sk))).map (passRow P s s.key) := by
          rw [hfold, mergeKey_tie P t snap s c hfc (Bool.eq_false_iff.mpr hu) hft]
          unfold secondPass
          rw [keyRows_map _ _ _ (passRow_key P s s.key),
            keyRows_map _ _ _ (fun x => replaceCur_key s.key _ x rfl)]
        by_cases hu2 : rowUnchanged P s (passRow P s s.key (updRow P t s c.attrs false c.sk))
        · exact mergeKey_unchanged P t _ s _ hcur hu2
        · rw [mergeKey_tie P t _ s _ hcur (Bool.eq_false_iff.mpr hu2)
            (by rw [(passRow_meta P s s.key _).2.2.1]; rfl)]
          unfold secondPass
          rw [List.map_map]
          apply map_id_on
          intro r hr
          rw [Function.comp_apply]
          by_cases hrk : r.key = s.key
          · have hrmem : r ∈ keyRows (S.foldl (mergeKey P t) T) s.key := by
              rw [keyRows, List.mem_filter]
              exact ⟨hr, by simp [hrk]⟩
            rw [hrows, List.mem_map] at hrmem
            obtain ⟨r₁, hr₁, hrr₁⟩ := hrmem
            rw [List.mem_map] at hr₁
            obtain ⟨r₀, hr₀, hrr₀⟩ := hr₁
            have hr₀key : r₀.key = s.key := keyRows_key snap s.key r₀ hr₀
            match hc₀ : r₀.isCur with
            | true =>
              have hrep : replaceCur s.key (updRow P t s c.attrs false c.sk) r₀ =
                  updRow P t s c.attrs false c.sk := by
                unfold replaceCur
                simp [hr₀key, hc₀]
              have hru : r = passRow P s s.key (updRow P t s c.attrs false c.sk) := by
                rw [← hrr₁, ← hrr₀, hrep]
              have hrepu : replaceCur s.key (updRow P t s
                  (passRow P s s.key (updRow P t s c.attrs false c.sk)).attrs false
                  (passRow P s s.key (updRow P t s c.attrs false c.sk)).sk) r =
                  updRow P t s
                    (passRow P s s.key (updRow P t s c.attrs false c.sk)).attrs false
                    (passRow P s s.key (updRow P t s c.attrs false c.sk)).sk := by
                unfold replaceCur
                rw [hru]
                simp [passRow_key, (passRow_meta P s s.key _).2.2.2.2, updRow_isCur, updRow_key]
              rw [hrepu, passRow_updRow_fix P t s c.attrs false c.sk hcols, ← hru]
            | false =>
              have hrep : replaceCur s.key (updRow P t s c.attrs false c.sk) r₀ = r₀ := by
                unfold replaceCur
                simp [hc₀]
              have hru : r = passRow P s s.key r₀ := by
                rw [← hrr₁, ← hrr₀, hrep]
              have hrcur : r.isCur = false := by
                rw [hru, (passRow_meta P s s.key _).2.2.2.2]
                exact hc₀
              have hrepr : replaceCur s.key (updRow P t s
                  (passRow P s s.key (updRow P t s c.attrs false c.sk)).attrs false
                  (passRow P s s.key (updRow P t s c.attrs false c.sk)).sk) r = r := by
                unfold replaceCur
                simp [hrcur]
              rw [hrepr, hru, passRow_idem P s r₀ hr₀key]
          · have hrep : replaceCur s.key (updRow P t s
                (passRow P s s.key (updRow P t s c.attrs false c.sk)).attrs false
                (passRow P s s.key (updRow P t s c.attrs false c.sk)).sk) r = r := by
              unfold replaceCur
              simp [hrk]
            have hpass : passRow P s s.key r = r := by
              unfold passRow
              simp [hrk]
            rw [hrep, hpass]
      · -- first run took the close-and-append branch
        have hcur : findCurrent (S.foldl (mergeKey P t) T) s.key =
            some (passRow P s s.key (updRow P t s c.attrs true (freshSk snap))) := by
          rw [hfcM, mergeKey_findCurrent_close P t snap s c hfc (Bool.eq_false_iff.mpr hu) hft]
        have hrows : keyRows (S.foldl (mergeKey P t) T) s.key =
            (((keyRows snap s.key).map (closeRow s.key t)).map (passRow P s s.key)) ++
              [passRow P s s.key (updRow P t s c.attrs true (freshSk snap))] := by
          rw [hfold, mergeKey_close P t snap s c hfc (Bool.eq_false_iff.mpr hu) hft]
          unfold secondPass
          rw [keyRows_map _ _ _ (passRow_key P s s.key), keyRows_append,
            keyRows_map _ _ _ (closeRow_key s.key t), keyRows_singleton]
          rw [if_pos (by simp [updRow_key]), List.map_append]
          rfl
        by_cases hu2 : rowUnchanged P s (passRow P s s.key (updRow P t s c.attrs true
            (freshSk snap)))
        · exact mergeKey_unchanged P t _ s _ hcur hu2
        · rw [mergeKey_tie P t _ s _ hcur (Bool.eq_false_iff.mpr hu2)
            (by rw [(passRow_meta P s s.key _).2.2.1]; rfl)]
          unfold secondPass
          rw [List.map_map]
          apply map_id_on
          intro r hr
          rw [Function.comp_apply]
          by_cases hrk : r.key = s.key
          · have hrmem : r ∈ keyRows (S.foldl (mergeKey P t) T) s.key := by
              rw [keyRows, List.mem_filter]
              exact ⟨hr, by simp [hrk]⟩
            rw [hrows, List.mem_append] at hrmem
            rcases hrmem with hrmem | hrmem
            · rw [List.mem_map] at hrmem
              obtain ⟨r₁, hr₁, hrr₁⟩ := hrmem
              rw [List.mem_map] at hr₁
              obtain ⟨r₀, hr₀, hrr₀⟩ := hr₁
              have hr₀key : r₀.key = s.key := keyRows_key snap s.key r₀ hr₀
              have hr₁key : r₁.key = s.key := by
                rw [← hrr₀, closeRow_key]
                exact hr₀key
              have hr₁cur : r₁.isCur = false := by
                rw [← hrr₀]
                exact closeRow_isCur s.key t r₀ hr₀key
              have hru : r = passRow P s s.key r₁ := hrr₁.symm
              have hrcur : r.isCur = false := by
                rw [hru, (passRow_meta P s s.key _).2.2.2.2]
                exact hr₁cur
              have hrepr : replaceCur s.key (updRow P t s
                  (passRow P s s.key (updRow P t s c.attrs true (freshSk snap))).attrs false
                  (passRow P s s.key (updRow P t s c.attrs true (freshSk snap))).sk) r = r := by
                unfold replaceCur
                simp [hrcur]
              rw [hrepr, hru, passRow_idem P s r₁ hr₁key]
            · have hru : r = passRow P s s.key (updRow P t s c.attrs true (freshSk snap)) := by
                simpa using hrmem
              have hrepu : replaceCur s.key (updRow P t s
                  (passRow P s s.key (updRow P t s c.attrs true (freshSk snap))).attrs false
                  (passRow P s s.key (updRow P t s c.attrs true (freshSk snap))).sk) r =
                  updRow P t s
                    (passRow P s s.key (updRow P t s c.attrs true (freshSk snap))).attrs false
                    (passRow P s s.key (updRow P t s c.attrs true (freshSk snap))).sk := by
                unfold replaceCur
                rw [hru]
                simp [passRow_key, (passRow_meta P s s.key _).2.2.2.2, updRow_isCur, updRow_key]
              rw [hrepu, passRow_updRow_fix P t s c.attrs true (freshSk snap) hcols, ← hru]
          · have hrep : replaceCur s.key (updRow P t s
                (passRow P s s.key (updRow P t s c.attrs true (freshSk snap))).attrs false
                (passRow P s s.key (updRow P t s c.attrs true (freshSk snap))).sk) r = r := by
              unfold replaceCur
              simp [hrk]
            have hpass : passRow P s s.key r = r := by
              unfold passRow
              simp [hrk]
            rw [hrep, hpass]

theorem foldl_curNodup (P : Policy) (t : Nat) (S : List SrcRow) (T : List Row)
    (h : ((T.filter (fun r => r.isCur)).map (fun r => r.key)).Nodup) :
    (((S.foldl (mergeKey P t) T).filter (fun r => r.isCur)).map (fun r => r.key)).Nodup := by
  induction S generalizing T with
  | nil => exact h
  | cons s rest ih =>
    rw [List.foldl_cons]
    exact ih _ (mergeKey_curNodup P t T s h)

/-- C3 (amended): re-running the identical source batch with the identical
merge timestamp against the already-merged snapshot is idempotent — if
`scd_merge S T P t = ok M` then `scd_merge S M P t = ok M`, so repeating the
same batch creates no duplicate versions.  (The literal composition of spec
§8, which feeds the merged snapshot back in the source-batch position against
the original target, fails: a type-2 merge output generally has several rows
per durable key, so that call raises `DuplicateSourceKey`; see the
counterexample.) -/
theorem idempotent_remerge (S : List SrcRow) (T : List Row) (P : Policy) (t : Nat)
    (M : List Row) (hok : scd_merge S T P t = .ok M) :
    scd_merge S M P t = .ok M := by
  obtain ⟨hd1, hd2, hd3, hM⟩ := scd_merge_ok_elim S T P t M hok
  have hnd : (S.map SrcRow.key).Nodup := by
    rw [← hasDupB_eq_false_iff]
    exact hd1
  have hcols : (outColsL P.cols).Nodup := by
    rw [← hasDupB_eq_false_iff]
    exact hd2
  have hT : ((T.filter (fun r => r.isCur)).map (fun r => r.key)).Nodup := by
    rw [← hasDupB_eq_false_iff]
    exact hd3
  have hcur : ((M.filter (fun r => r.isCur)).map (fun r => r.key)).Nodup := by
    rw [hM]
    exact foldl_curNodup P t S T hT
  unfold scd_merge
  rw [if_neg (by simp [hd1]), if_neg (by simp [hd2]),
    if_neg (by simp [(hasDupB_eq_false_iff _).mpr hcur])]
  congr 1
  apply foldl_id_on
  intro s hs
  rw [hM]
  exact mergeKey_remerge_id P t S T s hs hnd hcols

/-- C3 counterexample to the claim as literally stated: with the spec §8
example data, `merge(merge(S,T,P,t), T, P, t)` — the merged snapshot fed back
as the source batch against the original target — raises
`DuplicateSourceKey` instead of returning `merge(S,T,P,t)`, because the
merged snapshot holds two rows for durable key 1. -/
theorem remerge_literal_counterexample :
    scd_merge exS exT exP2 5 = .ok exM ∧
    scd_merge (exM.map rowToSrc) exT exP2 5 = .error .DuplicateSourceKey ∧
    scd_merge (exM.map rowToSrc) exT exP2 5 ≠ .ok exM := by
  refine ⟨by rfl, by rfl, ?_⟩
  intro h
  rw [show scd_merge (exM.map rowToSrc) exT exP2 5 =
    .error .DuplicateSourceKey from rfl] at h
  exact Except.noConfusion h

/-- Witness for C3 (amended): re-merging the example batch against the merged
snapshot returns the merged snapshot unchanged. -/
theorem idempotent_remerge_witness :
    scd_merge exS exT exP2 5 = .ok exM ∧ scd_merge exS exM exP2 5 = .ok exM :=
  ⟨by rfl, idempotent_remerge exS exT exP2 5 exM (by rfl)⟩
